import Mathlib

/-!
Shallow embedding of `src/opencad.c` (OpenAgentsInc/opencad): a minimal 2D
rasterization library over a caller-owned RGBA pixel buffer, plus a PPM (P6)
writer.

Modelling conventions:
* the pixel buffer `uint32_t *pixels` is a `List Nat` (each element a packed
  32-bit color value);
* `size_t` dimensions are `Nat`; C `int` coordinates are `Int` (the claims are
  about values representable in `int`, so wrap-around is not modelled);
* C integer division `/` on `int` truncates toward zero: embedded as
  `Int.tdiv`;
* `pixels[y*width + x] = color` becomes `List.set` at index
  `y.toNat * width + x.toNat` (the source only executes the store under the
  guards `0 <= x < width`, `0 <= y < height`);
* file I/O in `opencad_save_to_ppm_file` is modelled by an oracle `FileOps`
  saying whether `fopen` fails (and with which `errno`) and whether the k-th
  stream write operation fails (and with which `errno`).  Write operation 0 is
  the `fprintf` of the header; write operation `i+1` is the `fwrite` of the
  3-byte triplet of pixel `i`.  A failing write contributes no bytes to the
  output (the C stream contents after a failed write are unspecified; no claim
  depends on this choice).
-/

namespace OpenCad

/-- ASCII bytes of a string, as written by `fprintf` for a `%s`-free format. -/
def asciiBytes (s : String) : List Nat :=
  s.toList.map (fun ch => ch.toNat)

/-- The header bytes produced by `fprintf(f, "P6\n%zu %zu 255\n", width, height)`
in `opencad_save_to_ppm_file` (`%zu` prints an unsigned decimal). -/
def headerOf (width height : Nat) : List Nat :=
  asciiBytes ("P6\n" ++ Nat.repr width ++ " " ++ Nat.repr height ++ " 255\n")

/-- The three bytes `{(pixel>>(8*0))&0xFF, (pixel>>(8*1))&0xFF, (pixel>>(8*2))&0xFF}`
written by `fwrite` for one pixel in `opencad_save_to_ppm_file`. -/
def tripletOf (pixel : Nat) : List Nat :=
  [(pixel >>> (8*0)) &&& 0xFF, (pixel >>> (8*1)) &&& 0xFF, (pixel >>> (8*2)) &&& 0xFF]

/-- Oracle for the file operations of `opencad_save_to_ppm_file`: `openErrno = some e` means
`fopen` returns `NULL` with `errno = e`; `writeErrno k = some e` means the k-th
write operation leaves the stream in error state with `errno = e`. -/
structure FileOps where
  openErrno : Option Nat
  writeErrno : Nat → Option Nat

/-- An oracle on which every I/O operation succeeds. -/
def fopsOK : FileOps := ⟨none, fun _ => none⟩

/-- The pixel-writing loop of `opencad_save_to_ppm_file`:
`for (size_t i = 0; i < width*height; ++i) { ... fwrite(bytes, 3, 1, f); if (ferror(f)) return_defer(errno); }`.
`i` is the current pixel index, `rem` the number of pixels still to write,
`acc` the bytes already on the stream.  Returns `(result, bytes written)`. -/
def writePixels (pixels : List Nat) (fops : FileOps) :
    Nat → Nat → List Nat → Nat × List Nat
  | _, 0, acc => (0, acc)
  | i, rem+1, acc =>
    match fops.writeErrno (i+1) with
    | some e => (e, acc)
    | none => writePixels pixels fops (i+1) rem (acc ++ tripletOf (pixels.getD i 0))

/-- The bytes accumulated by `n` successful iterations of the pixel-writing
loop starting at pixel index `i`: one 3-byte triplet per pixel, in buffer
(row-major) order. -/
def tripletsFrom (pixels : List Nat) (i : Nat) : Nat → List Nat
  | 0 => []
  | n+1 => tripletOf (pixels.getD i 0) ++ tripletsFrom pixels (i+1) n

/-- Embedding of `opencad_save_to_ppm_file`: open the file (or fail with `errno`), write the
header (or fail), then write one 3-byte triplet per pixel in row-major index
order, stopping at the first stream error.  Returns the C function's `Errno`
result together with the bytes written to the stream. -/
def save_to_ppm_file (pixels : List Nat) (width height : Nat) (fops : FileOps) :
    Nat × List Nat :=
  match fops.openErrno with
  | some e => (e, [])
  | none =>
    match fops.writeErrno 0 with
    | some e => (e, [])
    | none => writePixels pixels fops 0 (width*height) (headerOf width height)

/-- Embedding of `opencad_fill`: `for (size_t i = 0; i < width*height; ++i) pixels[i] = color;`. -/
def fill (pixels : List Nat) (width height : Nat) (color : Nat) : List Nat :=
  (List.range (width*height)).foldl (fun buf i => buf.set i color) pixels

/-- The inclusive `int` range `[a, b]` iterated by `for (int v = a; v <= b; ++v)`. -/
def intRange (a b : Int) : List Int :=
  (List.range (b + 1 - a).toNat).map (fun (i : Nat) => a + (i : Int))

/-- Embedding of `opencad_fill_rect`: for `dy` in `[0, h)`, `y = y0 + dy`; if
`0 <= y < pixels_height` then for `dx` in `[0, w)`, `x = x0 + dx`; if
`0 <= x < pixels_width` then `pixels[y*pixels_width + x] = color`. -/
def fill_rect (pixels : List Nat) (width height : Nat)
    (x0 y0 : Int) (w h : Nat) (color : Nat) : List Nat :=
  (List.range h).foldl (fun buf (dy : Nat) =>
    let y : Int := y0 + (dy : Int)
    if 0 ≤ y ∧ y < (height : Int) then
      (List.range w).foldl (fun buf2 (dx : Nat) =>
        let x : Int := x0 + (dx : Int)
        if 0 ≤ x ∧ x < (width : Int) then
          buf2.set (y.toNat * width + x.toNat) color
        else buf2) buf
    else buf) pixels

/-- Embedding of `opencad_fill_circle`: iterate the bounding box `y` in `[cy-r, cy+r]`,
`x` in `[cx-r, cx+r]`; under the bounds guards, set the pixel when
`dx*dx + dy*dy <= r*r` for `dx = x - cx`, `dy = y - cy`. -/
def fill_circle (pixels : List Nat) (width height : Nat)
    (cx cy r : Int) (color : Nat) : List Nat :=
  let x1 := cx - r
  let y1 := cy - r
  let x2 := cx + r
  let y2 := cy + r
  (intRange y1 y2).foldl (fun buf y =>
    if 0 ≤ y ∧ y < (height : Int) then
      (intRange x1 x2).foldl (fun buf2 x =>
        if 0 ≤ x ∧ x < (width : Int) then
          let dx := x - cx
          let dy := y - cy
          if dx*dx + dy*dy ≤ r*r then
            buf2.set (y.toNat * width + x.toNat) color
          else buf2
        else buf2) buf
    else buf) pixels

/-- Embedding of `opencad_draw_line`.  With `dx = x2 - x1`, `dy = y2 - y1`: if `dx != 0`,
`c = y1 - dy*x1/dx` (C truncating division), `x1,x2` are swapped ascending, and
for each in-width column `x` in `[x1, x2]` the rows between
`sy1 = dy*x/dx + c` and `sy2 = dy*(x+1)/dx + c` (swapped ascending) are set
where in height bounds.  If `dx == 0`, `y1,y2` are swapped ascending and the
column `x1`, when in width bounds, is set on the in-bounds rows of `[y1, y2]`. -/
def draw_line (pixels : List Nat) (width height : Nat)
    (x1 y1 x2 y2 : Int) (color : Nat) : List Nat :=
  let dx := x2 - x1
  let dy := y2 - y1
  if dx ≠ 0 then
    let c := y1 - Int.tdiv (dy*x1) dx
    let xa := if x1 > x2 then x2 else x1
    let xb := if x1 > x2 then x1 else x2
    (intRange xa xb).foldl (fun buf x =>
      if 0 ≤ x ∧ x < (width : Int) then
        let sy1 := Int.tdiv (dy*x) dx + c
        let sy2 := Int.tdiv (dy*(x + 1)) dx + c
        let ya := if sy1 > sy2 then sy2 else sy1
        let yb := if sy1 > sy2 then sy1 else sy2
        (intRange ya yb).foldl (fun buf2 y =>
          if 0 ≤ y ∧ y < (height : Int) then
            buf2.set (y.toNat * width + x.toNat) color
          else buf2) buf
      else buf) pixels
  else
    let x := x1
    if 0 ≤ x ∧ x < (width : Int) then
      let ya := if y1 > y2 then y2 else y1
      let yb := if y1 > y2 then y1 else y2
      (intRange ya yb).foldl (fun buf2 y =>
        if 0 ≤ y ∧ y < (height : Int) then
          buf2.set (y.toNat * width + x.toNat) color
        else buf2) pixels
    else pixels

/-- Bounds-checked buffer store: the `none` branch models an out-of-range
access `pixels[i]` with `i >= length`, which C leaves undefined. -/
def setChecked (buf : List Nat) (i : Nat) (c : Nat) : Option (List Nat) :=
  if i < buf.length then some (buf.set i c) else none

/-- Variant of `opencad_fill_rect` with every store bounds-checked: identical control
flow, but each `pixels[y*width + x] = color` goes through `setChecked`. -/
def fill_rectChecked (pixels : List Nat) (width height : Nat)
    (x0 y0 : Int) (w h : Nat) (color : Nat) : Option (List Nat) :=
  (List.range h).foldl (fun obuf (dy : Nat) => obuf.bind (fun buf =>
    let y : Int := y0 + (dy : Int)
    if 0 ≤ y ∧ y < (height : Int) then
      (List.range w).foldl (fun obuf2 (dx : Nat) => obuf2.bind (fun buf2 =>
        let x : Int := x0 + (dx : Int)
        if 0 ≤ x ∧ x < (width : Int) then
          setChecked buf2 (y.toNat * width + x.toNat) color
        else some buf2)) (some buf)
    else some buf)) (some pixels)

/-- Variant of `opencad_fill_circle` with every store bounds-checked. -/
def fill_circleChecked (pixels : List Nat) (width height : Nat)
    (cx cy r : Int) (color : Nat) : Option (List Nat) :=
  let x1 := cx - r
  let y1 := cy - r
  let x2 := cx + r
  let y2 := cy + r
  (intRange y1 y2).foldl (fun obuf (y : Int) => obuf.bind (fun buf =>
    if 0 ≤ y ∧ y < (height : Int) then
      (intRange x1 x2).foldl (fun obuf2 (x : Int) => obuf2.bind (fun buf2 =>
        if 0 ≤ x ∧ x < (width : Int) then
          let dx := x - cx
          let dy := y - cy
          if dx*dx + dy*dy ≤ r*r then
            setChecked buf2 (y.toNat * width + x.toNat) color
          else some buf2
        else some buf2)) (some buf)
    else some buf)) (some pixels)

/-- Variant of `opencad_draw_line` with every store bounds-checked. -/
def draw_lineChecked (pixels : List Nat) (width height : Nat)
    (x1 y1 x2 y2 : Int) (color : Nat) : Option (List Nat) :=
  let dx := x2 - x1
  let dy := y2 - y1
  if dx ≠ 0 then
    let c := y1 - Int.tdiv (dy*x1) dx
    let xa := if x1 > x2 then x2 else x1
    let xb := if x1 > x2 then x1 else x2
    (intRange xa xb).foldl (fun obuf (x : Int) => obuf.bind (fun buf =>
      if 0 ≤ x ∧ x < (width : Int) then
        let sy1 := Int.tdiv (dy*x) dx + c
        let sy2 := Int.tdiv (dy*(x + 1)) dx + c
        let ya := if sy1 > sy2 then sy2 else sy1
        let yb := if sy1 > sy2 then sy1 else sy2
        (intRange ya yb).foldl (fun obuf2 (y : Int) => obuf2.bind (fun buf2 =>
          if 0 ≤ y ∧ y < (height : Int) then
            setChecked buf2 (y.toNat * width + x.toNat) color
          else some buf2)) (some buf)
      else some buf)) (some pixels)
  else
    let x := x1
    if 0 ≤ x ∧ x < (width : Int) then
      let ya := if y1 > y2 then y2 else y1
      let yb := if y1 > y2 then y1 else y2
      (intRange ya yb).foldl (fun obuf2 (y : Int) => obuf2.bind (fun buf2 =>
        if 0 ≤ y ∧ y < (height : Int) then
          setChecked buf2 (y.toNat * width + x.toNat) color
        else some buf2)) (some pixels)
    else some pixels

end OpenCad

-- sanity checks (concrete evaluation of the embedding)
example : OpenCad.headerOf 2 2 = [80, 54, 10, 50, 32, 50, 32, 50, 53, 53, 10] := by
  decide

example : OpenCad.tripletOf 0xFF0000FF = [0xFF, 0, 0] := by decide
example : OpenCad.tripletOf 0xFF808080 = [0x80, 0x80, 0x80] := by decide

example :
    OpenCad.save_to_ppm_file [0xFF0000FF, 0xFF00FF00, 0xFFFF0000, 0xFF808080] 2 2
      OpenCad.fopsOK =
    (0, [80, 54, 10, 50, 32, 50, 32, 50, 53, 53, 10,
         0xFF, 0, 0, 0, 0xFF, 0, 0, 0, 0xFF, 0x80, 0x80, 0x80]) := by
  decide

example : OpenCad.fill [1, 2, 3, 4] 2 2 7 = [7, 7, 7, 7] := by decide

example : OpenCad.fill_rect [0, 0, 0, 0, 0, 0] 3 2 1 0 2 2 9 = [0, 9, 9, 0, 9, 9] := by
  decide

example : OpenCad.fill_circle [0, 0, 0, 0, 0, 0, 0, 0, 0] 3 3 1 1 1 5 =
    [0, 5, 0, 5, 5, 5, 0, 5, 0] := by decide

example : OpenCad.fill_circle [1, 2, 3, 4] 2 2 0 0 (-1) 5 = [1, 2, 3, 4] := by decide

example : OpenCad.draw_line [0, 0, 0, 0, 0, 0, 0, 0, 0] 3 3 1 0 1 2 5 =
    [0, 5, 0, 0, 5, 0, 0, 5, 0] := by decide

example : OpenCad.draw_line [0, 0, 0, 0, 0, 0, 0, 0, 0] 3 3 0 0 2 2 5 =
    [5, 0, 0, 5, 5, 0, 0, 5, 5] := by decide

namespace OpenCad

/-! ### General machinery: pointwise characterization of set-folds -/

/-- Pointwise view of `List.set`: index `j` holds the new value exactly when
`j` is the written, in-range index. -/
theorem getElem?_set_pt (b : List Nat) (i c j : Nat) :
    (b.set i c)[j]? = if i = j ∧ j < b.length then some c else b[j]? := by
  rw [List.getElem?_set]
  by_cases hij : i = j
  · subst hij
    by_cases hi : i < b.length
    · simp [hi]
    · simp [hi, List.getElem?_eq_none (le_of_not_lt hi)]
  · simp [hij]

/-- A fold whose every step writes `color` at the indices described by `q`
yields a buffer that holds `color` exactly at the indices described by some
step, and is unchanged elsewhere. -/
theorem foldl_set_pointwise {κ : Type} (g : List Nat → κ → List Nat)
    (q : κ → Nat → Prop) [inst : ∀ k j, Decidable (q k j)] (color : Nat)
    (hg : ∀ b k, (g b k).length = b.length ∧
      ∀ j, (g b k)[j]? = if q k j ∧ j < b.length then some color else b[j]?) :
    ∀ (l : List κ) (buf : List Nat),
      (l.foldl g buf).length = buf.length ∧
      ∀ j, (l.foldl g buf)[j]? =
        if (∃ k ∈ l, q k j) ∧ j < buf.length then some color else buf[j]? := by
  intro l
  induction l with
  | nil => intro buf; simp
  | cons k t ih =>
    intro buf
    have hlen := (hg buf k).1
    have hpt := (hg buf k).2
    have iht := ih (g buf k)
    refine ⟨by rw [List.foldl_cons, iht.1, hlen], ?_⟩
    intro j
    rw [List.foldl_cons, iht.2 j, hlen, hpt j]
    by_cases hj : j < buf.length
    · by_cases h1 : ∃ k' ∈ t, q k' j
      · simp [hj, h1]
      · by_cases h2 : q k j
        · simp [hj, h1, h2]
        · simp [hj, h1, h2]
    · simp [hj]

/-- Membership in the inclusive `int` iteration range. -/
theorem mem_intRange {a b k : Int} : k ∈ intRange a b ↔ a ≤ k ∧ k ≤ b := by
  unfold intRange
  simp only [List.mem_map, List.mem_range]
  constructor
  · rintro ⟨i, hi, rfl⟩
    omega
  · rintro ⟨h1, h2⟩
    exact ⟨(k - a).toNat, by omega, by omega⟩

/-- Row-major index decomposition `y*width + x` with `x < width` is unique. -/
theorem index_decomp_unique {width x x' y y' : Nat} (hx : x < width) (hx' : x' < width)
    (h : y*width + x = y'*width + x') : y = y' ∧ x = x' := by
  have hw : 0 < width := by omega
  have e1 : (y*width + x) / width = y := by
    rw [show y*width + x = x + width*y by ring, Nat.add_mul_div_left x y hw,
      Nat.div_eq_of_lt hx, Nat.zero_add]
  have e2 : (y'*width + x') / width = y' := by
    rw [show y'*width + x' = x' + width*y' by ring, Nat.add_mul_div_left x' y' hw,
      Nat.div_eq_of_lt hx', Nat.zero_add]
  have hyy : y = y' := by rw [← e1, ← e2, h]
  exact ⟨hyy, by subst hyy; omega⟩

/-- A guarded row-major index is inside the buffer of `width*height` pixels. -/
theorem index_lt {width height x y : Nat} (hx : x < width) (hy : y < height) :
    y*width + x < width*height :=
  calc y*width + x < y*width + width := by omega
    _ = (y+1)*width := by ring
    _ ≤ height*width := Nat.mul_le_mul_right _ (by omega)
    _ = width*height := Nat.mul_comm _ _

/-- An inclusive `int` range with upper bound below lower bound is empty. -/
theorem intRange_eq_nil {a b : Int} (h : b < a) : intRange a b = [] := by
  unfold intRange
  rw [show (b + 1 - a).toNat = 0 by omega]
  rfl

/-- Pointwise characterization of `opencad_fill`. -/
theorem fill_getElem? (pixels : List Nat) (width height color : Nat) :
    (fill pixels width height color).length = pixels.length ∧
    ∀ j, (fill pixels width height color)[j]? =
      if j < width*height ∧ j < pixels.length then some color else pixels[j]? := by
  have H := foldl_set_pointwise (fun buf i => buf.set i color) (fun i j => i = j) color
    (fun b i => ⟨List.length_set b i color, fun j => getElem?_set_pt b i color j⟩)
    (List.range (width*height)) pixels
  refine ⟨H.1, fun j => ?_⟩
  rw [show fill pixels width height color
      = (List.range (width*height)).foldl (fun buf i => buf.set i color) pixels from rfl,
    H.2 j]
  congr 1
  simp [List.mem_range]

/-- Pointwise characterization of `opencad_fill_rect`: index `j` holds the new
color exactly when some iteration `(dy, dx)` of the two clipped loops writes
it, and is unchanged otherwise. -/
theorem fill_rect_getElem? (pixels : List Nat) (width height : Nat) (x0 y0 : Int)
    (w h : Nat) (color : Nat) :
    (fill_rect pixels width height x0 y0 w h color).length = pixels.length ∧
    ∀ j, (fill_rect pixels width height x0 y0 w h color)[j]? =
      if (∃ dy ∈ List.range h, (0 ≤ y0 + (dy:Int) ∧ y0 + (dy:Int) < (height:Int)) ∧
            ∃ dx ∈ List.range w, (0 ≤ x0 + (dx:Int) ∧ x0 + (dx:Int) < (width:Int)) ∧
              j = (y0 + (dy:Int)).toNat * width + (x0 + (dx:Int)).toNat) ∧
          j < pixels.length
      then some color else pixels[j]? := by
  have hinner : ∀ (y : Int) (buf : List Nat),
      ((List.range w).foldl (fun buf2 (dx : Nat) =>
          if 0 ≤ x0 + (dx:Int) ∧ x0 + (dx:Int) < (width:Int) then
            buf2.set (y.toNat * width + (x0 + (dx:Int)).toNat) color
          else buf2) buf).length = buf.length ∧
      ∀ j, ((List.range w).foldl (fun buf2 (dx : Nat) =>
          if 0 ≤ x0 + (dx:Int) ∧ x0 + (dx:Int) < (width:Int) then
            buf2.set (y.toNat * width + (x0 + (dx:Int)).toNat) color
          else buf2) buf)[j]? =
        if (∃ dx ∈ List.range w, (0 ≤ x0 + (dx:Int) ∧ x0 + (dx:Int) < (width:Int)) ∧
              j = y.toNat * width + (x0 + (dx:Int)).toNat) ∧ j < buf.length
        then some color else buf[j]? := by
    intro y buf
    refine foldl_set_pointwise _
      (fun (dx : Nat) j => (0 ≤ x0 + (dx:Int) ∧ x0 + (dx:Int) < (width:Int)) ∧
        j = y.toNat * width + (x0 + (dx:Int)).toNat) color ?_ (List.range w) buf
    intro b dx
    dsimp only
    by_cases hc : 0 ≤ x0 + (dx:Int) ∧ x0 + (dx:Int) < (width:Int)
    · rw [if_pos hc]
      refine ⟨List.length_set _ _ _, fun j => ?_⟩
      rw [getElem?_set_pt]
      congr 1
      apply propext
      constructor
      · rintro ⟨rfl, hj⟩; exact ⟨⟨hc, rfl⟩, hj⟩
      · rintro ⟨⟨_, rfl⟩, hj⟩; exact ⟨rfl, hj⟩
    · rw [if_neg hc]
      refine ⟨rfl, fun j => ?_⟩
      rw [if_neg]
      rintro ⟨⟨hcc, _⟩, _⟩
      exact hc hcc
  have hstep : ∀ (b : List Nat) (dy : Nat),
      ((fun buf (dy : Nat) =>
        if 0 ≤ y0 + (dy:Int) ∧ y0 + (dy:Int) < (height:Int) then
          (List.range w).foldl (fun buf2 (dx : Nat) =>
            if 0 ≤ x0 + (dx:Int) ∧ x0 + (dx:Int) < (width:Int) then
              buf2.set ((y0 + (dy:Int)).toNat * width + (x0 + (dx:Int)).toNat) color
            else buf2) buf
        else buf) b dy).length = b.length ∧
      ∀ j, ((fun buf (dy : Nat) =>
        if 0 ≤ y0 + (dy:Int) ∧ y0 + (dy:Int) < (height:Int) then
          (List.range w).foldl (fun buf2 (dx : Nat) =>
            if 0 ≤ x0 + (dx:Int) ∧ x0 + (dx:Int) < (width:Int) then
              buf2.set ((y0 + (dy:Int)).toNat * width + (x0 + (dx:Int)).toNat) color
            else buf2) buf
        else buf) b dy)[j]? =
        if ((0 ≤ y0 + (dy:Int) ∧ y0 + (dy:Int) < (height:Int)) ∧
            ∃ dx ∈ List.range w, (0 ≤ x0 + (dx:Int) ∧ x0 + (dx:Int) < (width:Int)) ∧
              j = (y0 + (dy:Int)).toNat * width + (x0 + (dx:Int)).toNat) ∧ j < b.length
        then some color else b[j]? := by
    intro b dy
    dsimp only
    by_cases hy : 0 ≤ y0 + (dy:Int) ∧ y0 + (dy:Int) < (height:Int)
    · rw [if_pos hy]
      refine ⟨(hinner (y0 + (dy:Int)) b).1, fun j => ?_⟩
      rw [(hinner (y0 + (dy:Int)) b).2 j]
      congr 1
      apply propext
      constructor
      · rintro ⟨hex, hj⟩; exact ⟨⟨hy, hex⟩, hj⟩
      · rintro ⟨⟨_, hex⟩, hj⟩; exact ⟨hex, hj⟩
    · rw [if_neg hy]
      refine ⟨rfl, fun j => ?_⟩
      rw [if_neg]
      rintro ⟨⟨hyy, _⟩, _⟩
      exact hy hyy
  have H := foldl_set_pointwise
    (fun buf (dy : Nat) =>
      if 0 ≤ y0 + (dy:Int) ∧ y0 + (dy:Int) < (height:Int) then
        (List.range w).foldl (fun buf2 (dx : Nat) =>
          if 0 ≤ x0 + (dx:Int) ∧ x0 + (dx:Int) < (width:Int) then
            buf2.set ((y0 + (dy:Int)).toNat * width + (x0 + (dx:Int)).toNat) color
          else buf2) buf
      else buf)
    (fun (dy : Nat) j => (0 ≤ y0 + (dy:Int) ∧ y0 + (dy:Int) < (height:Int)) ∧
      ∃ dx ∈ List.range w, (0 ≤ x0 + (dx:Int) ∧ x0 + (dx:Int) < (width:Int)) ∧
        j = (y0 + (dy:Int)).toNat * width + (x0 + (dx:Int)).toNat) color
    hstep (List.range h) pixels
  refine ⟨H.1, fun j => ?_⟩
  rw [show fill_rect pixels width height x0 y0 w h color
      = (List.range h).foldl (fun buf (dy : Nat) =>
          if 0 ≤ y0 + (dy:Int) ∧ y0 + (dy:Int) < (height:Int) then
            (List.range w).foldl (fun buf2 (dx : Nat) =>
              if 0 ≤ x0 + (dx:Int) ∧ x0 + (dx:Int) < (width:Int) then
                buf2.set ((y0 + (dy:Int)).toNat * width + (x0 + (dx:Int)).toNat) color
              else buf2) buf
          else buf) pixels from rfl,
    H.2 j]

end OpenCad

namespace OpenCad

/-- C7: for a buffer of positive `width` and `height`, after
`fill(buffer, width, height, color)` reading any index `i` with
`0 <= i < width*height` returns exactly that color. -/
theorem fill_sets_all_pixels (pixels : List Nat) (width height color : Nat)
    (hw : 0 < width) (hh : 0 < height) (hlen : pixels.length = width*height) :
    ∀ i, i < width*height → (fill pixels width height color)[i]? = some color := by
  intro i hi
  rw [(fill_getElem? pixels width height color).2 i, if_pos ⟨hi, by omega⟩]

/-- Witness for C7 at a concrete input. -/
theorem fill_sets_all_pixels_witness :
    (0 < 2 ∧ 0 < 2 ∧ ([1, 2, 3, 4] : List Nat).length = 2*2) ∧
      (∀ i, i < 2*2 → (fill [1, 2, 3, 4] 2 2 7)[i]? = some 7) :=
  ⟨⟨by decide, by decide, by decide⟩,
    fill_sets_all_pixels [1, 2, 3, 4] 2 2 7 (by decide) (by decide) (by decide)⟩

/-- C9: for a negative radius `r < 0`, `fill_circle` leaves the buffer
unchanged (the bounding-box loops are empty), a silent no-op. -/
theorem fill_circle_neg_radius_noop (pixels : List Nat) (width height : Nat)
    (cx cy r : Int) (color : Nat) (hr : r < 0) :
    fill_circle pixels width height cx cy r color = pixels := by
  simp only [fill_circle]
  rw [intRange_eq_nil (show cy + r < cy - r by omega)]
  rfl

/-- Witness for C9 at a concrete input. -/
theorem fill_circle_neg_radius_noop_witness :
    ((-1 : Int) < 0) ∧ fill_circle [1, 2, 3, 4] 2 2 0 0 (-1) 5 = [1, 2, 3, 4] :=
  ⟨by decide, fill_circle_neg_radius_noop [1, 2, 3, 4] 2 2 0 0 (-1) 5 (by decide)⟩

/-- C6: `fill_rect` sets exactly the pixels in the intersection of the
rectangle `[x0, x0+w) × [y0, y0+h)` with `[0, width) × [0, height)` to the
color, leaves all other pixels unchanged, and in particular leaves the whole
buffer unchanged when the rectangle is disjoint from the visible area. -/
theorem fill_rect_clip_spec (pixels : List Nat) (width height : Nat) (x0 y0 : Int)
    (w h : Nat) (color : Nat) (hlen : pixels.length = width*height) :
    (fill_rect pixels width height x0 y0 w h color).length = pixels.length ∧
    (∀ x y : Nat, x < width → y < height →
      (fill_rect pixels width height x0 y0 w h color)[y*width + x]? =
        if x0 ≤ (x:Int) ∧ (x:Int) < x0 + (w:Int) ∧ y0 ≤ (y:Int) ∧ (y:Int) < y0 + (h:Int)
        then some color else pixels[y*width + x]?) ∧
    ((∀ x y : Int, 0 ≤ x → x < (width:Int) → 0 ≤ y → y < (height:Int) →
        ¬(x0 ≤ x ∧ x < x0 + (w:Int) ∧ y0 ≤ y ∧ y < y0 + (h:Int))) →
      fill_rect pixels width height x0 y0 w h color = pixels) := by
  obtain ⟨hL, hpt⟩ := fill_rect_getElem? pixels width height x0 y0 w h color
  refine ⟨hL, ?_, ?_⟩
  · intro x y hx hy
    rw [hpt (y*width + x)]
    by_cases hin : x0 ≤ (x:Int) ∧ (x:Int) < x0 + (w:Int) ∧ y0 ≤ (y:Int) ∧ (y:Int) < y0 + (h:Int)
    · rw [if_pos hin, if_pos]
      refine ⟨⟨((y:Int) - y0).toNat, List.mem_range.mpr (by omega), ⟨by omega, by omega⟩,
        ((x:Int) - x0).toNat, List.mem_range.mpr (by omega), ⟨by omega, by omega⟩, ?_⟩,
        by rw [hlen]; exact index_lt hx hy⟩
      have e1 : (y0 + ((((y:Int) - y0).toNat : Nat) : Int)).toNat = y := by omega
      have e2 : (x0 + ((((x:Int) - x0).toNat : Nat) : Int)).toNat = x := by omega
      rw [e1, e2]
    · rw [if_neg hin, if_neg]
      rintro ⟨⟨dy, hdy, hyc, dx, hdx, hxc, hj⟩, _⟩
      have hdxw : (x0 + (dx:Int)).toNat < width := by omega
      have hdec := index_decomp_unique hx hdxw hj
      have hdyh := List.mem_range.mp hdy
      have hdxww := List.mem_range.mp hdx
      exact hin ⟨by omega, by omega, by omega, by omega⟩
  · intro hdisj
    apply List.ext_getElem?
    intro j
    rw [hpt j, if_neg]
    rintro ⟨⟨dy, hdy, hyc, dx, hdx, hxc, hj⟩, _⟩
    have hdyh := List.mem_range.mp hdy
    have hdxw := List.mem_range.mp hdx
    exact hdisj (x0 + (dx:Int)) (y0 + (dy:Int)) hxc.1 hxc.2 hyc.1 hyc.2
      ⟨by omega, by omega, by omega, by omega⟩

/-- Witness for C6 at a concrete input. -/
theorem fill_rect_clip_spec_witness :
    (([7] : List Nat).length = 1*1) ∧
    ((fill_rect [7] 1 1 0 0 1 1 3).length = ([7] : List Nat).length ∧
    (∀ x y : Nat, x < 1 → y < 1 →
      (fill_rect [7] 1 1 0 0 1 1 3)[y*1 + x]? =
        if (0:Int) ≤ (x:Int) ∧ (x:Int) < (0:Int) + ((1:Nat):Int) ∧
            (0:Int) ≤ (y:Int) ∧ (y:Int) < (0:Int) + ((1:Nat):Int)
        then some 3 else ([7] : List Nat)[y*1 + x]?) ∧
    ((∀ x y : Int, 0 ≤ x → x < ((1:Nat):Int) → 0 ≤ y → y < ((1:Nat):Int) →
        ¬((0:Int) ≤ x ∧ x < (0:Int) + ((1:Nat):Int) ∧
          (0:Int) ≤ y ∧ y < (0:Int) + ((1:Nat):Int))) →
      fill_rect [7] 1 1 0 0 1 1 3 = [7])) :=
  ⟨by decide, fill_rect_clip_spec [7] 1 1 0 0 1 1 3 (by decide)⟩

/-- From `a*a ≤ r*r` with `0 ≤ r` conclude `-r ≤ a ≤ r`. -/
theorem bound_of_sq_le_sq {a r : Int} (hr : 0 ≤ r) (h : a*a ≤ r*r) : -r ≤ a ∧ a ≤ r := by
  constructor <;> nlinarith [mul_self_nonneg (a - r), mul_self_nonneg (a + r)]

/-- Pointwise characterization of `opencad_fill_circle`: index `j` holds the
new color exactly when some in-bounds bounding-box pixel passing the disk test
has index `j`, and is unchanged otherwise. -/
theorem fill_circle_getElem? (pixels : List Nat) (width height : Nat)
    (cx cy r : Int) (color : Nat) :
    (fill_circle pixels width height cx cy r color).length = pixels.length ∧
    ∀ j, (fill_circle pixels width height cx cy r color)[j]? =
      if (∃ y ∈ intRange (cy - r) (cy + r), (0 ≤ y ∧ y < (height:Int)) ∧
            ∃ x ∈ intRange (cx - r) (cx + r), (0 ≤ x ∧ x < (width:Int)) ∧
              (x - cx)*(x - cx) + (y - cy)*(y - cy) ≤ r*r ∧
              j = y.toNat * width + x.toNat) ∧
          j < pixels.length
      then some color else pixels[j]? := by
  have hinner : ∀ (y : Int) (buf : List Nat),
      ((intRange (cx - r) (cx + r)).foldl (fun buf2 (x : Int) =>
          if 0 ≤ x ∧ x < (width:Int) then
            if (x - cx)*(x - cx) + (y - cy)*(y - cy) ≤ r*r then
              buf2.set (y.toNat * width + x.toNat) color
            else buf2
          else buf2) buf).length = buf.length ∧
      ∀ j, ((intRange (cx - r) (cx + r)).foldl (fun buf2 (x : Int) =>
          if 0 ≤ x ∧ x < (width:Int) then
            if (x - cx)*(x - cx) + (y - cy)*(y - cy) ≤ r*r then
              buf2.set (y.toNat * width + x.toNat) color
            else buf2
          else buf2) buf)[j]? =
        if (∃ x ∈ intRange (cx - r) (cx + r), (0 ≤ x ∧ x < (width:Int)) ∧
              (x - cx)*(x - cx) + (y - cy)*(y - cy) ≤ r*r ∧
              j = y.toNat * width + x.toNat) ∧ j < buf.length
        then some color else buf[j]? := by
    intro y buf
    refine foldl_set_pointwise _
      (fun (x : Int) j => (0 ≤ x ∧ x < (width:Int)) ∧
        (x - cx)*(x - cx) + (y - cy)*(y - cy) ≤ r*r ∧
        j = y.toNat * width + x.toNat) color ?_ (intRange (cx - r) (cx + r)) buf
    intro b x
    dsimp only
    by_cases hb : 0 ≤ x ∧ x < (width:Int)
    · rw [if_pos hb]
      by_cases hd : (x - cx)*(x - cx) + (y - cy)*(y - cy) ≤ r*r
      · rw [if_pos hd]
        refine ⟨List.length_set _ _ _, fun j => ?_⟩
        rw [getElem?_set_pt]
        congr 1
        apply propext
        constructor
        · rintro ⟨rfl, hj⟩; exact ⟨⟨hb, hd, rfl⟩, hj⟩
        · rintro ⟨⟨_, _, rfl⟩, hj⟩; exact ⟨rfl, hj⟩
      · rw [if_neg hd]
        refine ⟨rfl, fun j => ?_⟩
        rw [if_neg]
        rintro ⟨⟨_, hdd, _⟩, _⟩
        exact hd hdd
    · rw [if_neg hb]
      refine ⟨rfl, fun j => ?_⟩
      rw [if_neg]
      rintro ⟨⟨hbb, _⟩, _⟩
      exact hb hbb
  have hstep : ∀ (b : List Nat) (y : Int),
      ((fun buf (y : Int) =>
        if 0 ≤ y ∧ y < (height:Int) then
          (intRange (cx - r) (cx + r)).foldl (fun buf2 (x : Int) =>
            if 0 ≤ x ∧ x < (width:Int) then
              if (x - cx)*(x - cx) + (y - cy)*(y - cy) ≤ r*r then
                buf2.set (y.toNat * width + x.toNat) color
              else buf2
            else buf2) buf
        else buf) b y).length = b.length ∧
      ∀ j, ((fun buf (y : Int) =>
        if 0 ≤ y ∧ y < (height:Int) then
          (intRange (cx - r) (cx + r)).foldl (fun buf2 (x : Int) =>
            if 0 ≤ x ∧ x < (width:Int) then
              if (x - cx)*(x - cx) + (y - cy)*(y - cy) ≤ r*r then
                buf2.set (y.toNat * width + x.toNat) color
              else buf2
            else buf2) buf
        else buf) b y)[j]? =
        if ((0 ≤ y ∧ y < (height:Int)) ∧
            ∃ x ∈ intRange (cx - r) (cx + r), (0 ≤ x ∧ x < (width:Int)) ∧
              (x - cx)*(x - cx) + (y - cy)*(y - cy) ≤ r*r ∧
              j = y.toNat * width + x.toNat) ∧ j < b.length
        then some color else b[j]? := by
    intro b y
    dsimp only
    by_cases hy : 0 ≤ y ∧ y < (height:Int)
    · rw [if_pos hy]
      refine ⟨(hinner y b).1, fun j => ?_⟩
      rw [(hinner y b).2 j]
      congr 1
      apply propext
      constructor
      · rintro ⟨hex, hj⟩; exact ⟨⟨hy, hex⟩, hj⟩
      · rintro ⟨⟨_, hex⟩, hj⟩; exact ⟨hex, hj⟩
    · rw [if_neg hy]
      refine ⟨rfl, fun j => ?_⟩
      rw [if_neg]
      rintro ⟨⟨hyy, _⟩, _⟩
      exact hy hyy
  have H := foldl_set_pointwise
    (fun buf (y : Int) =>
      if 0 ≤ y ∧ y < (height:Int) then
        (intRange (cx - r) (cx + r)).foldl (fun buf2 (x : Int) =>
          if 0 ≤ x ∧ x < (width:Int) then
            if (x - cx)*(x - cx) + (y - cy)*(y - cy) ≤ r*r then
              buf2.set (y.toNat * width + x.toNat) color
            else buf2
          else buf2) buf
      else buf)
    (fun (y : Int) j => (0 ≤ y ∧ y < (height:Int)) ∧
      ∃ x ∈ intRange (cx - r) (cx + r), (0 ≤ x ∧ x < (width:Int)) ∧
        (x - cx)*(x - cx) + (y - cy)*(y - cy) ≤ r*r ∧
        j = y.toNat * width + x.toNat) color
    hstep (intRange (cy - r) (cy + r)) pixels
  refine ⟨H.1, fun j => ?_⟩
  rw [show fill_circle pixels width height cx cy r color
      = (intRange (cy - r) (cy + r)).foldl (fun buf (y : Int) =>
          if 0 ≤ y ∧ y < (height:Int) then
            (intRange (cx - r) (cx + r)).foldl (fun buf2 (x : Int) =>
              if 0 ≤ x ∧ x < (width:Int) then
                if (x - cx)*(x - cx) + (y - cy)*(y - cy) ≤ r*r then
                  buf2.set (y.toNat * width + x.toNat) color
                else buf2
              else buf2) buf
          else buf) pixels from rfl,
    H.2 j]

/-- C3: for `r >= 0`, after `fill_circle` an in-bounds pixel `(x, y)` holds the
new color exactly when `(x-cx)^2 + (y-cy)^2 <= r^2` or it already held that
color: every pixel set satisfies the disk inequality, every in-bounds pixel
satisfying it is set, and pixels outside the disk are unchanged. -/
theorem fill_circle_disk_spec (pixels : List Nat) (width height : Nat)
    (cx cy r : Int) (color : Nat) (x y : Nat)
    (hr : 0 ≤ r) (hx : x < width) (hy : y < height)
    (hlen : pixels.length = width*height) :
    ((fill_circle pixels width height cx cy r color)[y*width + x]? =
      if ((x:Int) - cx)*((x:Int) - cx) + ((y:Int) - cy)*((y:Int) - cy) ≤ r*r
      then some color else pixels[y*width + x]?) ∧
    ((fill_circle pixels width height cx cy r color)[y*width + x]? = some color ↔
      (((x:Int) - cx)*((x:Int) - cx) + ((y:Int) - cy)*((y:Int) - cy) ≤ r*r ∨
        pixels[y*width + x]? = some color)) := by
  obtain ⟨hL, hpt⟩ := fill_circle_getElem? pixels width height cx cy r color
  have hmain : (fill_circle pixels width height cx cy r color)[y*width + x]? =
      if ((x:Int) - cx)*((x:Int) - cx) + ((y:Int) - cy)*((y:Int) - cy) ≤ r*r
      then some color else pixels[y*width + x]? := by
    rw [hpt (y*width + x)]
    by_cases hd : ((x:Int) - cx)*((x:Int) - cx) + ((y:Int) - cy)*((y:Int) - cy) ≤ r*r
    · rw [if_pos hd, if_pos]
      refine ⟨⟨(y:Int), ?_, ⟨by omega, by omega⟩, (x:Int), ?_, ⟨by omega, by omega⟩,
          hd, by simp⟩, by rw [hlen]; exact index_lt hx hy⟩
      · have h1 : ((y:Int) - cy)*((y:Int) - cy) ≤ r*r := by
          nlinarith [mul_self_nonneg ((x:Int) - cx)]
        have h2 := bound_of_sq_le_sq hr h1
        exact mem_intRange.mpr ⟨by omega, by omega⟩
      · have h1 : ((x:Int) - cx)*((x:Int) - cx) ≤ r*r := by
          nlinarith [mul_self_nonneg ((y:Int) - cy)]
        have h2 := bound_of_sq_le_sq hr h1
        exact mem_intRange.mpr ⟨by omega, by omega⟩
    · rw [if_neg hd, if_neg]
      rintro ⟨⟨y', hy', hyb, x', hx', hxb, hd', hj⟩, _⟩
      have hx'w : x'.toNat < width := by omega
      have hdec := index_decomp_unique hx hx'w hj
      have ex : x' = (x:Int) := by omega
      have ey : y' = (y:Int) := by omega
      rw [ex, ey] at hd'
      exact hd hd'
  refine ⟨hmain, ?_⟩
  rw [hmain]
  by_cases hd : ((x:Int) - cx)*((x:Int) - cx) + ((y:Int) - cy)*((y:Int) - cy) ≤ r*r
  · rw [if_pos hd]
    simp [hd]
  · rw [if_neg hd]
    constructor
    · intro hcol
      exact Or.inr hcol
    · rintro (hdd | hcol)
      · exact absurd hdd hd
      · exact hcol

/-- Witness for C3 at a concrete input. -/
theorem fill_circle_disk_spec_witness :
    ((0:Int) ≤ 1 ∧ (0:Nat) < 2 ∧ (0:Nat) < 2 ∧ ([1, 2, 3, 4] : List Nat).length = 2*2) ∧
    (((fill_circle [1, 2, 3, 4] 2 2 0 0 1 9)[0*2 + 0]? =
      if (((0:Nat):Int) - 0)*(((0:Nat):Int) - 0) + (((0:Nat):Int) - 0)*(((0:Nat):Int) - 0) ≤ 1*1
      then some 9 else ([1, 2, 3, 4] : List Nat)[0*2 + 0]?) ∧
    ((fill_circle [1, 2, 3, 4] 2 2 0 0 1 9)[0*2 + 0]? = some 9 ↔
      ((((0:Nat):Int) - 0)*(((0:Nat):Int) - 0) + (((0:Nat):Int) - 0)*(((0:Nat):Int) - 0) ≤ 1*1 ∨
        ([1, 2, 3, 4] : List Nat)[0*2 + 0]? = some 9))) :=
  ⟨⟨by decide, by decide, by decide, by decide⟩,
    fill_circle_disk_spec [1, 2, 3, 4] 2 2 0 0 1 9 0 0
      (by decide) (by decide) (by decide) (by decide)⟩

/-- The `swap_int`-style ascending reorder written with `if` equals `min`. -/
theorem if_swap_min (a b : Int) : (if a > b then b else a) = min a b := by
  split_ifs <;> omega

/-- The `swap_int`-style ascending reorder written with `if` equals `max`. -/
theorem if_swap_max (a b : Int) : (if a > b then a else b) = max a b := by
  split_ifs <;> omega

/-- Pointwise characterization of the clipped column-span loop of
`opencad_draw_line` at a fixed column `x`: rows `ya..yb` intersected with the
height bounds are written. -/
theorem column_fold_getElem? (x : Int) (width height : Nat) (color : Nat)
    (ya yb : Int) (buf : List Nat) :
    ((intRange ya yb).foldl (fun buf2 (y : Int) =>
        if 0 ≤ y ∧ y < (height:Int) then buf2.set (y.toNat * width + x.toNat) color
        else buf2) buf).length = buf.length ∧
    ∀ j, ((intRange ya yb).foldl (fun buf2 (y : Int) =>
        if 0 ≤ y ∧ y < (height:Int) then buf2.set (y.toNat * width + x.toNat) color
        else buf2) buf)[j]? =
      if (∃ y ∈ intRange ya yb, (0 ≤ y ∧ y < (height:Int)) ∧
            j = y.toNat * width + x.toNat) ∧ j < buf.length
      then some color else buf[j]? := by
  refine foldl_set_pointwise _
    (fun (y : Int) j => (0 ≤ y ∧ y < (height:Int)) ∧ j = y.toNat * width + x.toNat)
    color ?_ (intRange ya yb) buf
  intro b y
  dsimp only
  by_cases hb : 0 ≤ y ∧ y < (height:Int)
  · rw [if_pos hb]
    refine ⟨List.length_set _ _ _, fun j => ?_⟩
    rw [getElem?_set_pt]
    congr 1
    apply propext
    constructor
    · rintro ⟨rfl, hj⟩; exact ⟨⟨hb, rfl⟩, hj⟩
    · rintro ⟨⟨_, rfl⟩, hj⟩; exact ⟨rfl, hj⟩
  · rw [if_neg hb]
    refine ⟨rfl, fun j => ?_⟩
    rw [if_neg]
    rintro ⟨⟨hbb, _⟩, _⟩
    exact hb hbb

/-- Pointwise characterization of the vertical branch (`x1 == x2`) of
`opencad_draw_line`. -/
theorem draw_line_vert_getElem? (pixels : List Nat) (width height : Nat)
    (x1 y1 x2 y2 : Int) (color : Nat) (h12 : x1 = x2) :
    (draw_line pixels width height x1 y1 x2 y2 color).length = pixels.length ∧
    ∀ j, (draw_line pixels width height x1 y1 x2 y2 color)[j]? =
      if ((0 ≤ x1 ∧ x1 < (width:Int)) ∧
          ∃ y ∈ intRange (min y1 y2) (max y1 y2), (0 ≤ y ∧ y < (height:Int)) ∧
            j = y.toNat * width + x1.toNat) ∧ j < pixels.length
      then some color else pixels[j]? := by
  have hdx : ¬(x2 - x1 ≠ 0) := by omega
  have e : draw_line pixels width height x1 y1 x2 y2 color =
      (if 0 ≤ x1 ∧ x1 < (width:Int) then
        (intRange (min y1 y2) (max y1 y2)).foldl (fun buf2 (y : Int) =>
          if 0 ≤ y ∧ y < (height:Int) then buf2.set (y.toNat * width + x1.toNat) color
          else buf2) pixels
      else pixels) := by
    rw [show draw_line pixels width height x1 y1 x2 y2 color
        = (if x2 - x1 ≠ 0 then
            (let c := y1 - Int.tdiv ((y2 - y1)*x1) (x2 - x1)
             let xa := if x1 > x2 then x2 else x1
             let xb := if x1 > x2 then x1 else x2
             (intRange xa xb).foldl (fun buf (x : Int) =>
               if 0 ≤ x ∧ x < (width : Int) then
                 let sy1 := Int.tdiv ((y2 - y1)*x) (x2 - x1) + c
                 let sy2 := Int.tdiv ((y2 - y1)*(x + 1)) (x2 - x1) + c
                 let ya := if sy1 > sy2 then sy2 else sy1
                 let yb := if sy1 > sy2 then sy1 else sy2
                 (intRange ya yb).foldl (fun buf2 (y : Int) =>
                   if 0 ≤ y ∧ y < (height : Int) then
                     buf2.set (y.toNat * width + x.toNat) color
                   else buf2) buf
               else buf) pixels)
          else
            (if 0 ≤ x1 ∧ x1 < (width : Int) then
              (intRange (if y1 > y2 then y2 else y1) (if y1 > y2 then y1 else y2)).foldl
                (fun buf2 (y : Int) =>
                  if 0 ≤ y ∧ y < (height : Int) then
                    buf2.set (y.toNat * width + x1.toNat) color
                  else buf2) pixels
            else pixels)) from rfl,
      if_neg hdx, if_swap_min, if_swap_max]
  rw [e]
  by_cases hb : 0 ≤ x1 ∧ x1 < (width:Int)
  · rw [if_pos hb]
    obtain ⟨hL, hpt⟩ := column_fold_getElem? x1 width height color (min y1 y2) (max y1 y2) pixels
    refine ⟨hL, fun j => ?_⟩
    rw [hpt j]
    congr 1
    apply propext
    constructor
    · rintro ⟨hex, hj⟩; exact ⟨⟨hb, hex⟩, hj⟩
    · rintro ⟨⟨_, hex⟩, hj⟩; exact ⟨hex, hj⟩
  · rw [if_neg hb]
    refine ⟨rfl, fun j => ?_⟩
    rw [if_neg]
    rintro ⟨⟨hbb, _⟩, _⟩
    exact hb hbb

/-- C5: for a vertical line (`x1 == x2`) with `0 <= x1 < width`, `draw_line`
modifies exactly the pixels of column `x1` whose row lies in
`min(y1,y2)..max(y1,y2)` intersected with `[0, height)`, setting them to the
color and leaving every other pixel unchanged; in particular a zero-length
line at an in-bounds point sets exactly that one pixel. -/
theorem draw_line_vertical_spec (pixels : List Nat) (width height : Nat)
    (x1 y1 x2 y2 : Int) (color : Nat)
    (h12 : x1 = x2) (hx0 : 0 ≤ x1) (hxw : x1 < (width:Int))
    (hlen : pixels.length = width*height) :
    (draw_line pixels width height x1 y1 x2 y2 color).length = pixels.length ∧
    (∀ x y : Nat, x < width → y < height →
      (draw_line pixels width height x1 y1 x2 y2 color)[y*width + x]? =
        if (x:Int) = x1 ∧ min y1 y2 ≤ (y:Int) ∧ (y:Int) ≤ max y1 y2
        then some color else pixels[y*width + x]?) ∧
    (y1 = y2 → ∀ x y : Nat, x < width → y < height →
      (draw_line pixels width height x1 y1 x2 y2 color)[y*width + x]? =
        if (x:Int) = x1 ∧ (y:Int) = y1
        then some color else pixels[y*width + x]?) := by
  obtain ⟨hL, hpt⟩ := draw_line_vert_getElem? pixels width height x1 y1 x2 y2 color h12
  have hmain : ∀ x y : Nat, x < width → y < height →
      (draw_line pixels width height x1 y1 x2 y2 color)[y*width + x]? =
        if (x:Int) = x1 ∧ min y1 y2 ≤ (y:Int) ∧ (y:Int) ≤ max y1 y2
        then some color else pixels[y*width + x]? := by
    intro x y hx hy
    rw [hpt (y*width + x)]
    by_cases hin : (x:Int) = x1 ∧ min y1 y2 ≤ (y:Int) ∧ (y:Int) ≤ max y1 y2
    · rw [if_pos hin, if_pos]
      refine ⟨⟨⟨hx0, hxw⟩, (y:Int), mem_intRange.mpr ⟨hin.2.1, hin.2.2⟩,
          ⟨by omega, by omega⟩, ?_⟩, by rw [hlen]; exact index_lt hx hy⟩
      have e1 : ((y:Int)).toNat = y := by omega
      have e2 : x1.toNat = x := by omega
      rw [e1, e2]
    · rw [if_neg hin, if_neg]
      rintro ⟨⟨hbx, y', hy', hyb, hj⟩, _⟩
      apply hin
      have hx1w : x1.toNat < width := by omega
      have hdec := index_decomp_unique hx hx1w hj
      have hym := mem_intRange.mp hy'
      exact ⟨by omega, by omega, by omega⟩
  refine ⟨hL, hmain, ?_⟩
  intro hyy x y hx hy
  rw [hmain x y hx hy]
  congr 1
  apply propext
  constructor
  · rintro ⟨h1, h2, h3⟩; exact ⟨h1, by omega⟩
  · rintro ⟨h1, h2⟩; exact ⟨h1, by omega, by omega⟩

/-- Witness for C5 at a concrete input. -/
theorem draw_line_vertical_spec_witness :
    ((0:Int) = 0 ∧ (0:Int) ≤ 0 ∧ (0:Int) < ((1:Nat):Int) ∧
      ([4] : List Nat).length = 1*1) ∧
    ((draw_line [4] 1 1 0 0 0 0 6).length = ([4] : List Nat).length ∧
    (∀ x y : Nat, x < 1 → y < 1 →
      (draw_line [4] 1 1 0 0 0 0 6)[y*1 + x]? =
        if (x:Int) = 0 ∧ min (0:Int) 0 ≤ (y:Int) ∧ (y:Int) ≤ max (0:Int) 0
        then some 6 else ([4] : List Nat)[y*1 + x]?) ∧
    ((0:Int) = 0 → ∀ x y : Nat, x < 1 → y < 1 →
      (draw_line [4] 1 1 0 0 0 0 6)[y*1 + x]? =
        if (x:Int) = 0 ∧ (y:Int) = 0
        then some 6 else ([4] : List Nat)[y*1 + x]?)) :=
  ⟨⟨rfl, by decide, by decide, by decide⟩,
    draw_line_vertical_spec [4] 1 1 0 0 0 0 6 rfl (by decide) (by decide) (by decide)⟩

/-- Pointwise characterization of the non-vertical branch (`x1 != x2`) of
`opencad_draw_line`: with `dx = x2-x1`, `dy = y2-y1`,
`c = y1 - tdiv(dy*x1, dx)`, each in-width column `x` of `[min x1 x2, max x1 x2]`
gets its clipped row span `[min sy1 sy2, max sy1 sy2]` written, where
`sy1 = tdiv(dy*x, dx) + c` and `sy2 = tdiv(dy*(x+1), dx) + c`. -/
theorem draw_line_nonvert_getElem? (pixels : List Nat) (width height : Nat)
    (x1 y1 x2 y2 : Int) (color : Nat) (hne : x1 ≠ x2) :
    (draw_line pixels width height x1 y1 x2 y2 color).length = pixels.length ∧
    ∀ j, (draw_line pixels width height x1 y1 x2 y2 color)[j]? =
      if (∃ x ∈ intRange (min x1 x2) (max x1 x2), (0 ≤ x ∧ x < (width:Int)) ∧
            ∃ y ∈ intRange
                (min (Int.tdiv ((y2 - y1)*x) (x2 - x1) +
                        (y1 - Int.tdiv ((y2 - y1)*x1) (x2 - x1)))
                     (Int.tdiv ((y2 - y1)*(x + 1)) (x2 - x1) +
                        (y1 - Int.tdiv ((y2 - y1)*x1) (x2 - x1))))
                (max (Int.tdiv ((y2 - y1)*x) (x2 - x1) +
                        (y1 - Int.tdiv ((y2 - y1)*x1) (x2 - x1)))
                     (Int.tdiv ((y2 - y1)*(x + 1)) (x2 - x1) +
                        (y1 - Int.tdiv ((y2 - y1)*x1) (x2 - x1)))),
              (0 ≤ y ∧ y < (height:Int)) ∧ j = y.toNat * width + x.toNat) ∧
          j < pixels.length
      then some color else pixels[j]? := by
  have hdx : x2 - x1 ≠ 0 := by omega
  have e : draw_line pixels width height x1 y1 x2 y2 color =
      (intRange (min x1 x2) (max x1 x2)).foldl (fun buf (x : Int) =>
        if 0 ≤ x ∧ x < (width:Int) then
          (intRange
              (min (Int.tdiv ((y2 - y1)*x) (x2 - x1) +
                      (y1 - Int.tdiv ((y2 - y1)*x1) (x2 - x1)))
                   (Int.tdiv ((y2 - y1)*(x + 1)) (x2 - x1) +
                      (y1 - Int.tdiv ((y2 - y1)*x1) (x2 - x1))))
              (max (Int.tdiv ((y2 - y1)*x) (x2 - x1) +
                      (y1 - Int.tdiv ((y2 - y1)*x1) (x2 - x1)))
                   (Int.tdiv ((y2 - y1)*(x + 1)) (x2 - x1) +
                      (y1 - Int.tdiv ((y2 - y1)*x1) (x2 - x1))))).foldl
            (fun buf2 (y : Int) =>
              if 0 ≤ y ∧ y < (height:Int) then buf2.set (y.toNat * width + x.toNat) color
              else buf2) buf
        else buf) pixels := by
    rw [show draw_line pixels width height x1 y1 x2 y2 color
        = (if x2 - x1 ≠ 0 then
            (intRange (if x1 > x2 then x2 else x1) (if x1 > x2 then x1 else x2)).foldl
              (fun buf (x : Int) =>
                if 0 ≤ x ∧ x < (width : Int) then
                  (intRange
                      (if Int.tdiv ((y2 - y1)*x) (x2 - x1) +
                            (y1 - Int.tdiv ((y2 - y1)*x1) (x2 - x1)) >
                          Int.tdiv ((y2 - y1)*(x + 1)) (x2 - x1) +
                            (y1 - Int.tdiv ((y2 - y1)*x1) (x2 - x1))
                       then Int.tdiv ((y2 - y1)*(x + 1)) (x2 - x1) +
                            (y1 - Int.tdiv ((y2 - y1)*x1) (x2 - x1))
                       else Int.tdiv ((y2 - y1)*x) (x2 - x1) +
                            (y1 - Int.tdiv ((y2 - y1)*x1) (x2 - x1)))
                      (if Int.tdiv ((y2 - y1)*x) (x2 - x1) +
                            (y1 - Int.tdiv ((y2 - y1)*x1) (x2 - x1)) >
                          Int.tdiv ((y2 - y1)*(x + 1)) (x2 - x1) +
                            (y1 - Int.tdiv ((y2 - y1)*x1) (x2 - x1))
                       then Int.tdiv ((y2 - y1)*x) (x2 - x1) +
                            (y1 - Int.tdiv ((y2 - y1)*x1) (x2 - x1))
                       else Int.tdiv ((y2 - y1)*(x + 1)) (x2 - x1) +
                            (y1 - Int.tdiv ((y2 - y1)*x1) (x2 - x1)))).foldl
                    (fun buf2 (y : Int) =>
                      if 0 ≤ y ∧ y < (height : Int) then
                        buf2.set (y.toNat * width + x.toNat) color
                      else buf2) buf
                else buf) pixels
          else
            (if 0 ≤ x1 ∧ x1 < (width : Int) then
              (intRange (if y1 > y2 then y2 else y1) (if y1 > y2 then y1 else y2)).foldl
                (fun buf2 (y : Int) =>
                  if 0 ≤ y ∧ y < (height : Int) then
                    buf2.set (y.toNat * width + x1.toNat) color
                  else buf2) pixels
            else pixels)) from rfl,
      if_pos hdx]
    simp only [if_swap_min, if_swap_max]
  rw [e]
  refine foldl_set_pointwise _
    (fun (x : Int) j => (0 ≤ x ∧ x < (width:Int)) ∧
      ∃ y ∈ intRange
          (min (Int.tdiv ((y2 - y1)*x) (x2 - x1) +
                  (y1 - Int.tdiv ((y2 - y1)*x1) (x2 - x1)))
               (Int.tdiv ((y2 - y1)*(x + 1)) (x2 - x1) +
                  (y1 - Int.tdiv ((y2 - y1)*x1) (x2 - x1))))
          (max (Int.tdiv ((y2 - y1)*x) (x2 - x1) +
                  (y1 - Int.tdiv ((y2 - y1)*x1) (x2 - x1)))
               (Int.tdiv ((y2 - y1)*(x + 1)) (x2 - x1) +
                  (y1 - Int.tdiv ((y2 - y1)*x1) (x2 - x1)))),
        (0 ≤ y ∧ y < (height:Int)) ∧ j = y.toNat * width + x.toNat)
    color ?_ (intRange (min x1 x2) (max x1 x2)) pixels
  intro b x
  dsimp only
  by_cases hb : 0 ≤ x ∧ x < (width:Int)
  · rw [if_pos hb]
    obtain ⟨hL, hpt⟩ := column_fold_getElem? x width height color
      (min (Int.tdiv ((y2 - y1)*x) (x2 - x1) +
              (y1 - Int.tdiv ((y2 - y1)*x1) (x2 - x1)))
           (Int.tdiv ((y2 - y1)*(x + 1)) (x2 - x1) +
              (y1 - Int.tdiv ((y2 - y1)*x1) (x2 - x1))))
      (max (Int.tdiv ((y2 - y1)*x) (x2 - x1) +
              (y1 - Int.tdiv ((y2 - y1)*x1) (x2 - x1)))
           (Int.tdiv ((y2 - y1)*(x + 1)) (x2 - x1) +
              (y1 - Int.tdiv ((y2 - y1)*x1) (x2 - x1)))) b
    refine ⟨hL, fun j => ?_⟩
    rw [hpt j]
    congr 1
    apply propext
    constructor
    · rintro ⟨hex, hj⟩; exact ⟨⟨hb, hex⟩, hj⟩
    · rintro ⟨⟨_, hex⟩, hj⟩; exact ⟨hex, hj⟩
  · rw [if_neg hb]
    refine ⟨rfl, fun j => ?_⟩
    rw [if_neg]
    rintro ⟨⟨hbb, _⟩, _⟩
    exact hb hbb

/-- C4: for a non-vertical line (`x1 != x2`), with `dx = x2-x1`, `dy = y2-y1`
and intercept `c = y1 - (dy*x1)/dx` under truncating division, `draw_line`
sets, for each in-width column `x` of the ascending range `[x1, x2]`, exactly
the in-height rows of the inclusive ascending span between
`sy1 = (dy*x)/dx + c` and `sy2 = (dy*(x+1))/dx + c`, leaving all other pixels
unchanged; the same truncating division is used for the intercept and every
per-column y. -/
theorem draw_line_nonvertical_spec (pixels : List Nat) (width height : Nat)
    (x1 y1 x2 y2 : Int) (color : Nat)
    (hne : x1 ≠ x2) (hlen : pixels.length = width*height) :
    (draw_line pixels width height x1 y1 x2 y2 color).length = pixels.length ∧
    (∀ x y : Nat, x < width → y < height →
      (draw_line pixels width height x1 y1 x2 y2 color)[y*width + x]? =
        if min x1 x2 ≤ (x:Int) ∧ (x:Int) ≤ max x1 x2 ∧
            min (Int.tdiv ((y2 - y1)*(x:Int)) (x2 - x1) +
                   (y1 - Int.tdiv ((y2 - y1)*x1) (x2 - x1)))
                (Int.tdiv ((y2 - y1)*((x:Int) + 1)) (x2 - x1) +
                   (y1 - Int.tdiv ((y2 - y1)*x1) (x2 - x1))) ≤ (y:Int) ∧
            (y:Int) ≤ max (Int.tdiv ((y2 - y1)*(x:Int)) (x2 - x1) +
                   (y1 - Int.tdiv ((y2 - y1)*x1) (x2 - x1)))
                (Int.tdiv ((y2 - y1)*((x:Int) + 1)) (x2 - x1) +
                   (y1 - Int.tdiv ((y2 - y1)*x1) (x2 - x1)))
        then some color else pixels[y*width + x]?) := by
  obtain ⟨hL, hpt⟩ := draw_line_nonvert_getElem? pixels width height x1 y1 x2 y2 color hne
  refine ⟨hL, ?_⟩
  intro x y hx hy
  rw [hpt (y*width + x)]
  by_cases hin : min x1 x2 ≤ (x:Int) ∧ (x:Int) ≤ max x1 x2 ∧
      min (Int.tdiv ((y2 - y1)*(x:Int)) (x2 - x1) +
             (y1 - Int.tdiv ((y2 - y1)*x1) (x2 - x1)))
          (Int.tdiv ((y2 - y1)*((x:Int) + 1)) (x2 - x1) +
             (y1 - Int.tdiv ((y2 - y1)*x1) (x2 - x1))) ≤ (y:Int) ∧
      (y:Int) ≤ max (Int.tdiv ((y2 - y1)*(x:Int)) (x2 - x1) +
             (y1 - Int.tdiv ((y2 - y1)*x1) (x2 - x1)))
          (Int.tdiv ((y2 - y1)*((x:Int) + 1)) (x2 - x1) +
             (y1 - Int.tdiv ((y2 - y1)*x1) (x2 - x1)))
  case pos =>
    rw [if_pos hin, if_pos]
    refine ⟨⟨(x:Int), mem_intRange.mpr ⟨hin.1, hin.2.1⟩, ⟨by omega, by omega⟩,
        (y:Int), mem_intRange.mpr ⟨hin.2.2.1, hin.2.2.2⟩, ⟨by omega, by omega⟩, by simp⟩,
      by rw [hlen]; exact index_lt hx hy⟩
  case neg =>
    rw [if_neg hin, if_neg]
    rintro ⟨⟨x', hx', hxb, y', hy', hyb, hj⟩, _⟩
    apply hin
    have hx'w : x'.toNat < width := by omega
    have hdec := index_decomp_unique hx hx'w hj
    have ex : x' = (x:Int) := by omega
    have ey : y' = (y:Int) := by omega
    have hxm := mem_intRange.mp hx'
    have hym := mem_intRange.mp hy'
    rw [ex] at hxm hym
    rw [ey] at hym
    exact ⟨by omega, by omega, hym.1, hym.2⟩

/-- Witness for C4 at a concrete input. -/
theorem draw_line_nonvertical_spec_witness :
    ((0:Int) ≠ 1 ∧ ([1, 2, 3, 4] : List Nat).length = 2*2) ∧
    ((draw_line [1, 2, 3, 4] 2 2 0 0 1 1 6).length = ([1, 2, 3, 4] : List Nat).length ∧
    (∀ x y : Nat, x < 2 → y < 2 →
      (draw_line [1, 2, 3, 4] 2 2 0 0 1 1 6)[y*2 + x]? =
        if min (0:Int) 1 ≤ (x:Int) ∧ (x:Int) ≤ max (0:Int) 1 ∧
            min (Int.tdiv ((1 - 0)*(x:Int)) (1 - 0) +
                   (0 - Int.tdiv ((1 - 0)*0) (1 - 0)))
                (Int.tdiv ((1 - 0)*((x:Int) + 1)) (1 - 0) +
                   (0 - Int.tdiv ((1 - 0)*0) (1 - 0))) ≤ (y:Int) ∧
            (y:Int) ≤ max (Int.tdiv ((1 - 0)*(x:Int)) (1 - 0) +
                   (0 - Int.tdiv ((1 - 0)*0) (1 - 0)))
                (Int.tdiv ((1 - 0)*((x:Int) + 1)) (1 - 0) +
                   (0 - Int.tdiv ((1 - 0)*0) (1 - 0)))
        then some 6 else ([1, 2, 3, 4] : List Nat)[y*2 + x]?)) :=
  ⟨⟨by decide, by decide⟩,
    draw_line_nonvertical_spec [1, 2, 3, 4] 2 2 0 0 1 1 6 (by decide) (by decide)⟩

/-- A fold threading `Option` agrees with the plain fold when every step
succeeds on buffers of the invariant length `L` and preserves that length. -/
theorem foldl_bind_eq {κ : Type} (f : κ → List Nat → Option (List Nat))
    (g : List Nat → κ → List Nat) (L : Nat)
    (hfg : ∀ b k, b.length = L → f k b = some (g b k) ∧ (g b k).length = L) :
    ∀ (l : List κ) (buf : List Nat), buf.length = L →
      l.foldl (fun ob k => ob.bind (f k)) (some buf) = some (l.foldl g buf) ∧
      (l.foldl g buf).length = L := by
  intro l
  induction l with
  | nil => intro buf hb; exact ⟨rfl, hb⟩
  | cons k t ih =>
    intro buf hb
    have h1 := hfg buf k hb
    rw [List.foldl_cons, List.foldl_cons,
      show ((some buf).bind (f k) : Option (List Nat)) = f k buf from rfl, h1.1]
    exact ih (g buf k) h1.2

/-- The bounds-checked column-span loop of `draw_lineChecked` never takes the
`none` branch on a buffer of length `width*height`. -/
theorem column_fold_checked (x : Int) (width height color : Nat)
    (hx : 0 ≤ x ∧ x < (width:Int)) (ya yb : Int) :
    ∀ buf : List Nat, buf.length = width*height →
      (intRange ya yb).foldl (fun obuf2 (y : Int) => obuf2.bind (fun buf2 =>
        if 0 ≤ y ∧ y < (height:Int) then
          setChecked buf2 (y.toNat * width + x.toNat) color
        else some buf2)) (some buf) =
        some ((intRange ya yb).foldl (fun buf2 (y : Int) =>
          if 0 ≤ y ∧ y < (height:Int) then buf2.set (y.toNat * width + x.toNat) color
          else buf2) buf) ∧
      ((intRange ya yb).foldl (fun buf2 (y : Int) =>
          if 0 ≤ y ∧ y < (height:Int) then buf2.set (y.toNat * width + x.toNat) color
          else buf2) buf).length = width*height := by
  intro buf hb
  refine foldl_bind_eq _ _ (width*height) ?_ (intRange ya yb) buf hb
  intro b y hbL
  by_cases hy : 0 ≤ y ∧ y < (height:Int)
  · rw [if_pos hy, if_pos hy]
    have hidx : y.toNat * width + x.toNat < width*height := by
      exact index_lt (by omega) (by omega)
    constructor
    · unfold setChecked
      rw [if_pos (by omega : y.toNat * width + x.toNat < b.length)]
    · rw [List.length_set, hbL]
  · rw [if_neg hy, if_neg hy]
    exact ⟨rfl, hbL⟩

/-- C10: under the invariant that the buffer has exactly `width*height`
elements, every element access performed by `fill_rect`, `fill_circle` and
`draw_line` is in bounds: the bounds-checked variants never take the `none`
branch and compute exactly the unchecked results. -/
theorem drawing_ops_checked (pixels : List Nat) (width height : Nat)
    (hlen : pixels.length = width*height) :
    (∀ (x0 y0 : Int) (w h : Nat) (color : Nat),
      fill_rectChecked pixels width height x0 y0 w h color =
        some (fill_rect pixels width height x0 y0 w h color)) ∧
    (∀ (cx cy r : Int) (color : Nat),
      fill_circleChecked pixels width height cx cy r color =
        some (fill_circle pixels width height cx cy r color)) ∧
    (∀ (x1 y1 x2 y2 : Int) (color : Nat),
      draw_lineChecked pixels width height x1 y1 x2 y2 color =
        some (draw_line pixels width height x1 y1 x2 y2 color)) := by
  refine ⟨?_, ?_, ?_⟩
  · -- fill_rect
    intro x0 y0 w h color
    have hinner : ∀ (y : Int), (0 ≤ y ∧ y < (height:Int)) →
        ∀ b : List Nat, b.length = width*height →
        (List.range w).foldl (fun obuf2 (dx : Nat) => obuf2.bind (fun buf2 =>
          if 0 ≤ x0 + (dx:Int) ∧ x0 + (dx:Int) < (width:Int) then
            setChecked buf2 (y.toNat * width + (x0 + (dx:Int)).toNat) color
          else some buf2)) (some b) =
          some ((List.range w).foldl (fun buf2 (dx : Nat) =>
            if 0 ≤ x0 + (dx:Int) ∧ x0 + (dx:Int) < (width:Int) then
              buf2.set (y.toNat * width + (x0 + (dx:Int)).toNat) color
            else buf2) b) ∧
        ((List.range w).foldl (fun buf2 (dx : Nat) =>
            if 0 ≤ x0 + (dx:Int) ∧ x0 + (dx:Int) < (width:Int) then
              buf2.set (y.toNat * width + (x0 + (dx:Int)).toNat) color
            else buf2) b).length = width*height := by
      intro y hy b hb
      refine foldl_bind_eq _ _ (width*height) ?_ (List.range w) b hb
      intro b2 dx hb2
      by_cases hc : 0 ≤ x0 + (dx:Int) ∧ x0 + (dx:Int) < (width:Int)
      · rw [if_pos hc, if_pos hc]
        have hidx : y.toNat * width + (x0 + (dx:Int)).toNat < width*height :=
          index_lt (by omega) (by omega)
        constructor
        · unfold setChecked
          rw [if_pos (by omega : y.toNat * width + (x0 + (dx:Int)).toNat < b2.length)]
        · rw [List.length_set, hb2]
      · rw [if_neg hc, if_neg hc]
        exact ⟨rfl, hb2⟩
    have H := foldl_bind_eq
      (fun (dy : Nat) buf =>
        if 0 ≤ y0 + (dy:Int) ∧ y0 + (dy:Int) < (height:Int) then
          (List.range w).foldl (fun obuf2 (dx : Nat) => obuf2.bind (fun buf2 =>
            if 0 ≤ x0 + (dx:Int) ∧ x0 + (dx:Int) < (width:Int) then
              setChecked buf2 ((y0 + (dy:Int)).toNat * width + (x0 + (dx:Int)).toNat) color
            else some buf2)) (some buf)
        else some buf)
      (fun buf (dy : Nat) =>
        if 0 ≤ y0 + (dy:Int) ∧ y0 + (dy:Int) < (height:Int) then
          (List.range w).foldl (fun buf2 (dx : Nat) =>
            if 0 ≤ x0 + (dx:Int) ∧ x0 + (dx:Int) < (width:Int) then
              buf2.set ((y0 + (dy:Int)).toNat * width + (x0 + (dx:Int)).toNat) color
            else buf2) buf
        else buf)
      (width*height) ?_ (List.range h) pixels hlen
    · exact H.1
    · intro b dy hb
      dsimp only
      by_cases hy : 0 ≤ y0 + (dy:Int) ∧ y0 + (dy:Int) < (height:Int)
      · rw [if_pos hy, if_pos hy]
        exact hinner (y0 + (dy:Int)) hy b hb
      · rw [if_neg hy, if_neg hy]
        exact ⟨rfl, hb⟩
  · -- fill_circle
    intro cx cy r color
    have hinner : ∀ (y : Int), (0 ≤ y ∧ y < (height:Int)) →
        ∀ b : List Nat, b.length = width*height →
        (intRange (cx - r) (cx + r)).foldl (fun obuf2 (x : Int) => obuf2.bind (fun buf2 =>
          if 0 ≤ x ∧ x < (width:Int) then
            if (x - cx)*(x - cx) + (y - cy)*(y - cy) ≤ r*r then
              setChecked buf2 (y.toNat * width + x.toNat) color
            else some buf2
          else some buf2)) (some b) =
          some ((intRange (cx - r) (cx + r)).foldl (fun buf2 (x : Int) =>
            if 0 ≤ x ∧ x < (width:Int) then
              if (x - cx)*(x - cx) + (y - cy)*(y - cy) ≤ r*r then
                buf2.set (y.toNat * width + x.toNat) color
              else buf2
            else buf2) b) ∧
        ((intRange (cx - r) (cx + r)).foldl (fun buf2 (x : Int) =>
            if 0 ≤ x ∧ x < (width:Int) then
              if (x - cx)*(x - cx) + (y - cy)*(y - cy) ≤ r*r then
                buf2.set (y.toNat * width + x.toNat) color
              else buf2
            else buf2) b).length = width*height := by
      intro y hy b hb
      refine foldl_bind_eq _ _ (width*height) ?_ (intRange (cx - r) (cx + r)) b hb
      intro b2 x hb2
      by_cases hc : 0 ≤ x ∧ x < (width:Int)
      · rw [if_pos hc, if_pos hc]
        by_cases hd : (x - cx)*(x - cx) + (y - cy)*(y - cy) ≤ r*r
        · rw [if_pos hd, if_pos hd]
          have hidx : y.toNat * width + x.toNat < width*height :=
            index_lt (by omega) (by omega)
          constructor
          · unfold setChecked
            rw [if_pos (by omega : y.toNat * width + x.toNat < b2.length)]
          · rw [List.length_set, hb2]
        · rw [if_neg hd, if_neg hd]
          exact ⟨rfl, hb2⟩
      · rw [if_neg hc, if_neg hc]
        exact ⟨rfl, hb2⟩
    have H := foldl_bind_eq
      (fun (y : Int) buf =>
        if 0 ≤ y ∧ y < (height:Int) then
          (intRange (cx - r) (cx + r)).foldl (fun obuf2 (x : Int) => obuf2.bind (fun buf2 =>
            if 0 ≤ x ∧ x < (width:Int) then
              if (x - cx)*(x - cx) + (y - cy)*(y - cy) ≤ r*r then
                setChecked buf2 (y.toNat * width + x.toNat) color
              else some buf2
            else some buf2)) (some buf)
        else some buf)
      (fun buf (y : Int) =>
        if 0 ≤ y ∧ y < (height:Int) then
          (intRange (cx - r) (cx + r)).foldl (fun buf2 (x : Int) =>
            if 0 ≤ x ∧ x < (width:Int) then
              if (x - cx)*(x - cx) + (y - cy)*(y - cy) ≤ r*r then
                buf2.set (y.toNat * width + x.toNat) color
              else buf2
            else buf2) buf
        else buf)
      (width*height) ?_ (intRange (cy - r) (cy + r)) pixels hlen
    · exact H.1
    · intro b y hb
      dsimp only
      by_cases hy : 0 ≤ y ∧ y < (height:Int)
      · rw [if_pos hy, if_pos hy]
        exact hinner y hy b hb
      · rw [if_neg hy, if_neg hy]
        exact ⟨rfl, hb⟩
  · -- draw_line
    intro x1 y1 x2 y2 color
    by_cases hdx : x2 - x1 ≠ 0
    · have H := foldl_bind_eq
        (fun (x : Int) buf =>
          if 0 ≤ x ∧ x < (width:Int) then
            (intRange
                (if Int.tdiv ((y2 - y1)*x) (x2 - x1) +
                      (y1 - Int.tdiv ((y2 - y1)*x1) (x2 - x1)) >
                    Int.tdiv ((y2 - y1)*(x + 1)) (x2 - x1) +
                      (y1 - Int.tdiv ((y2 - y1)*x1) (x2 - x1))
                 then Int.tdiv ((y2 - y1)*(x + 1)) (x2 - x1) +
                      (y1 - Int.tdiv ((y2 - y1)*x1) (x2 - x1))
                 else Int.tdiv ((y2 - y1)*x) (x2 - x1) +
                      (y1 - Int.tdiv ((y2 - y1)*x1) (x2 - x1)))
                (if Int.tdiv ((y2 - y1)*x) (x2 - x1) +
                      (y1 - Int.tdiv ((y2 - y1)*x1) (x2 - x1)) >
                    Int.tdiv ((y2 - y1)*(x + 1)) (x2 - x1) +
                      (y1 - Int.tdiv ((y2 - y1)*x1) (x2 - x1))
                 then Int.tdiv ((y2 - y1)*x) (x2 - x1) +
                      (y1 - Int.tdiv ((y2 - y1)*x1) (x2 - x1))
                 else Int.tdiv ((y2 - y1)*(x + 1)) (x2 - x1) +
                      (y1 - Int.tdiv ((y2 - y1)*x1) (x2 - x1)))).foldl
              (fun obuf2 (y : Int) => obuf2.bind (fun buf2 =>
                if 0 ≤ y ∧ y < (height:Int) then
                  setChecked buf2 (y.toNat * width + x.toNat) color
                else some buf2)) (some buf)
          else some buf)
        (fun buf (x : Int) =>
          if 0 ≤ x ∧ x < (width:Int) then
            (intRange
                (if Int.tdiv ((y2 - y1)*x) (x2 - x1) +
                      (y1 - Int.tdiv ((y2 - y1)*x1) (x2 - x1)) >
                    Int.tdiv ((y2 - y1)*(x + 1)) (x2 - x1) +
                      (y1 - Int.tdiv ((y2 - y1)*x1) (x2 - x1))
                 then Int.tdiv ((y2 - y1)*(x + 1)) (x2 - x1) +
                      (y1 - Int.tdiv ((y2 - y1)*x1) (x2 - x1))
                 else Int.tdiv ((y2 - y1)*x) (x2 - x1) +
                      (y1 - Int.tdiv ((y2 - y1)*x1) (x2 - x1)))
                (if Int.tdiv ((y2 - y1)*x) (x2 - x1) +
                      (y1 - Int.tdiv ((y2 - y1)*x1) (x2 - x1)) >
                    Int.tdiv ((y2 - y1)*(x + 1)) (x2 - x1) +
                      (y1 - Int.tdiv ((y2 - y1)*x1) (x2 - x1))
                 then Int.tdiv ((y2 - y1)*x) (x2 - x1) +
                      (y1 - Int.tdiv ((y2 - y1)*x1) (x2 - x1))
                 else Int.tdiv ((y2 - y1)*(x + 1)) (x2 - x1) +
                      (y1 - Int.tdiv ((y2 - y1)*x1) (x2 - x1)))).foldl
              (fun buf2 (y : Int) =>
                if 0 ≤ y ∧ y < (height:Int) then
                  buf2.set (y.toNat * width + x.toNat) color
                else buf2) buf
          else buf)
        (width*height) ?_
        (intRange (if x1 > x2 then x2 else x1) (if x1 > x2 then x1 else x2)) pixels hlen
      · rw [show draw_lineChecked pixels width height x1 y1 x2 y2 color
            = (intRange (if x1 > x2 then x2 else x1) (if x1 > x2 then x1 else x2)).foldl
                (fun obuf (x : Int) => obuf.bind (fun buf =>
                  if 0 ≤ x ∧ x < (width:Int) then
                    (intRange
                        (if Int.tdiv ((y2 - y1)*x) (x2 - x1) +
                              (y1 - Int.tdiv ((y2 - y1)*x1) (x2 - x1)) >
                            Int.tdiv ((y2 - y1)*(x + 1)) (x2 - x1) +
                              (y1 - Int.tdiv ((y2 - y1)*x1) (x2 - x1))
                         then Int.tdiv ((y2 - y1)*(x + 1)) (x2 - x1) +
                              (y1 - Int.tdiv ((y2 - y1)*x1) (x2 - x1))
                         else Int.tdiv ((y2 - y1)*x) (x2 - x1) +
                              (y1 - Int.tdiv ((y2 - y1)*x1) (x2 - x1)))
                        (if Int.tdiv ((y2 - y1)*x) (x2 - x1) +
                              (y1 - Int.tdiv ((y2 - y1)*x1) (x2 - x1)) >
                            Int.tdiv ((y2 - y1)*(x + 1)) (x2 - x1) +
                              (y1 - Int.tdiv ((y2 - y1)*x1) (x2 - x1))
                         then Int.tdiv ((y2 - y1)*x) (x2 - x1) +
                              (y1 - Int.tdiv ((y2 - y1)*x1) (x2 - x1))
                         else Int.tdiv ((y2 - y1)*(x + 1)) (x2 - x1) +
                              (y1 - Int.tdiv ((y2 - y1)*x1) (x2 - x1)))).foldl
                      (fun obuf2 (y : Int) => obuf2.bind (fun buf2 =>
                        if 0 ≤ y ∧ y < (height:Int) then
                          setChecked buf2 (y.toNat * width + x.toNat) color
                        else some buf2)) (some buf)
                  else some buf)) (some pixels)
            from by rw [draw_lineChecked, if_pos hdx],
          show draw_line pixels width height x1 y1 x2 y2 color
            = (intRange (if x1 > x2 then x2 else x1) (if x1 > x2 then x1 else x2)).foldl
                (fun buf (x : Int) =>
                  if 0 ≤ x ∧ x < (width:Int) then
                    (intRange
                        (if Int.tdiv ((y2 - y1)*x) (x2 - x1) +
                              (y1 - Int.tdiv ((y2 - y1)*x1) (x2 - x1)) >
                            Int.tdiv ((y2 - y1)*(x + 1)) (x2 - x1) +
                              (y1 - Int.tdiv ((y2 - y1)*x1) (x2 - x1))
                         then Int.tdiv ((y2 - y1)*(x + 1)) (x2 - x1) +
                              (y1 - Int.tdiv ((y2 - y1)*x1) (x2 - x1))
                         else Int.tdiv ((y2 - y1)*x) (x2 - x1) +
                              (y1 - Int.tdiv ((y2 - y1)*x1) (x2 - x1)))
                        (if Int.tdiv ((y2 - y1)*x) (x2 - x1) +
                              (y1 - Int.tdiv ((y2 - y1)*x1) (x2 - x1)) >
                            Int.tdiv ((y2 - y1)*(x + 1)) (x2 - x1) +
                              (y1 - Int.tdiv ((y2 - y1)*x1) (x2 - x1))
                         then Int.tdiv ((y2 - y1)*x) (x2 - x1) +
                              (y1 - Int.tdiv ((y2 - y1)*x1) (x2 - x1))
                         else Int.tdiv ((y2 - y1)*(x + 1)) (x2 - x1) +
                              (y1 - Int.tdiv ((y2 - y1)*x1) (x2 - x1)))).foldl
                      (fun buf2 (y : Int) =>
                        if 0 ≤ y ∧ y < (height:Int) then
                          buf2.set (y.toNat * width + x.toNat) color
                        else buf2) buf
                  else buf) pixels
            from by rw [draw_line, if_pos hdx]]
        exact H.1
      · intro b x hb
        dsimp only
        by_cases hc : 0 ≤ x ∧ x < (width:Int)
        · rw [if_pos hc, if_pos hc]
          exact ⟨(column_fold_checked x width height color hc _ _ b hb).1,
            (column_fold_checked x width height color hc _ _ b hb).2⟩
        · rw [if_neg hc, if_neg hc]
          exact ⟨rfl, hb⟩
    · rw [show draw_lineChecked pixels width height x1 y1 x2 y2 color
          = (if 0 ≤ x1 ∧ x1 < (width:Int) then
              (intRange (if y1 > y2 then y2 else y1) (if y1 > y2 then y1 else y2)).foldl
                (fun obuf2 (y : Int) => obuf2.bind (fun buf2 =>
                  if 0 ≤ y ∧ y < (height:Int) then
                    setChecked buf2 (y.toNat * width + x1.toNat) color
                  else some buf2)) (some pixels)
            else some pixels)
          from by rw [draw_lineChecked, if_neg hdx],
        show draw_line pixels width height x1 y1 x2 y2 color
          = (if 0 ≤ x1 ∧ x1 < (width:Int) then
              (intRange (if y1 > y2 then y2 else y1) (if y1 > y2 then y1 else y2)).foldl
                (fun buf2 (y : Int) =>
                  if 0 ≤ y ∧ y < (height:Int) then
                    buf2.set (y.toNat * width + x1.toNat) color
                  else buf2) pixels
            else pixels)
          from by rw [draw_line, if_neg hdx]]
      by_cases hc : 0 ≤ x1 ∧ x1 < (width:Int)
      · rw [if_pos hc, if_pos hc]
        exact (column_fold_checked x1 width height color hc _ _ pixels hlen).1
      · rw [if_neg hc, if_neg hc]

/-- Witness for C10 at a concrete input. -/
theorem drawing_ops_checked_witness :
    (([1, 2, 3, 4] : List Nat).length = 2*2) ∧
    ((∀ (x0 y0 : Int) (w h : Nat) (color : Nat),
      fill_rectChecked [1, 2, 3, 4] 2 2 x0 y0 w h color =
        some (fill_rect [1, 2, 3, 4] 2 2 x0 y0 w h color)) ∧
    (∀ (cx cy r : Int) (color : Nat),
      fill_circleChecked [1, 2, 3, 4] 2 2 cx cy r color =
        some (fill_circle [1, 2, 3, 4] 2 2 cx cy r color)) ∧
    (∀ (x1 y1 x2 y2 : Int) (color : Nat),
      draw_lineChecked [1, 2, 3, 4] 2 2 x1 y1 x2 y2 color =
        some (draw_line [1, 2, 3, 4] 2 2 x1 y1 x2 y2 color))) :=
  ⟨by decide, drawing_ops_checked [1, 2, 3, 4] 2 2 (by decide)⟩

/-! ### PPM writer -/

/-- Appending strings concatenates their `asciiBytes`. -/
theorem asciiBytes_append (s t : String) :
    asciiBytes (s ++ t) = asciiBytes s ++ asciiBytes t := by
  simp [asciiBytes, String.toList]

/-- When every remaining write succeeds, the pixel loop returns result 0 and
appends one triplet per remaining pixel. -/
theorem writePixels_success (pixels : List Nat) (fops : FileOps) :
    ∀ (rem i : Nat) (acc : List Nat),
      (∀ k, i + 1 ≤ k → k ≤ i + rem → fops.writeErrno k = none) →
      writePixels pixels fops i rem acc = (0, acc ++ tripletsFrom pixels i rem) := by
  intro rem
  induction rem with
  | zero =>
    intro i acc _
    show ((0 : Nat), acc) = (0, acc ++ tripletsFrom pixels i 0)
    rw [show tripletsFrom pixels i 0 = [] from rfl, List.append_nil]
  | succ n ih =>
    intro i acc h
    have hnone : fops.writeErrno (i+1) = none := h (i+1) (by omega) (by omega)
    rw [show writePixels pixels fops i (n+1) acc
        = (match fops.writeErrno (i+1) with
          | some e => (e, acc)
          | none => writePixels pixels fops (i+1) n (acc ++ tripletOf (pixels.getD i 0)))
        from rfl, hnone,
      ih (i+1) (acc ++ tripletOf (pixels.getD i 0)) (fun k h1 h2 => h k (by omega) (by omega)),
      show tripletsFrom pixels i (n+1)
        = tripletOf (pixels.getD i 0) ++ tripletsFrom pixels (i+1) n from rfl,
      List.append_assoc]

/-- With nonzero errno codes, the pixel loop reports 0 exactly when every
remaining write succeeds. -/
theorem writePixels_fst_zero_iff (pixels : List Nat) (fops : FileOps)
    (hnzw : ∀ k e, fops.writeErrno k = some e → e ≠ 0) :
    ∀ (rem i : Nat) (acc : List Nat),
      ((writePixels pixels fops i rem acc).1 = 0 ↔
        ∀ k, i + 1 ≤ k → k ≤ i + rem → fops.writeErrno k = none) := by
  intro rem
  induction rem with
  | zero =>
    intro i acc
    constructor
    · intro _ k h1 h2
      exact absurd h2 (by omega)
    · intro _
      rfl
  | succ n ih =>
    intro i acc
    rw [show writePixels pixels fops i (n+1) acc
        = (match fops.writeErrno (i+1) with
          | some e => (e, acc)
          | none => writePixels pixels fops (i+1) n (acc ++ tripletOf (pixels.getD i 0)))
        from rfl]
    cases hw : fops.writeErrno (i+1) with
    | some e =>
      constructor
      · intro h0
        exact absurd h0 (hnzw (i+1) e hw)
      · intro hall
        have hc := hall (i+1) (by omega) (by omega)
        rw [hw] at hc
        exact Option.noConfusion hc
    | none =>
      have hih := ih (i+1) (acc ++ tripletOf (pixels.getD i 0))
      constructor
      · intro h0 k h1 h2
        by_cases hk : k = i+1
        · rw [hk]; exact hw
        · exact hih.mp h0 k (by omega) (by omega)
      · intro hall
        exact hih.mpr (fun k h1 h2 => hall k (by omega) (by omega))

/-- When the first failing write is operation `k` (with errno `e`), the pixel
loop stops there, returning `e` with only the triplets before it appended. -/
theorem writePixels_first_fail (pixels : List Nat) (fops : FileOps) :
    ∀ (rem i : Nat) (acc : List Nat) (k e : Nat),
      i + 1 ≤ k → k ≤ i + rem → fops.writeErrno k = some e →
      (∀ j, i + 1 ≤ j → j < k → fops.writeErrno j = none) →
      writePixels pixels fops i rem acc = (e, acc ++ tripletsFrom pixels i (k - 1 - i)) := by
  intro rem
  induction rem with
  | zero =>
    intro i acc k e h1 h2 _ _
    exact absurd h2 (by omega)
  | succ n ih =>
    intro i acc k e h1 h2 hke hfirst
    rw [show writePixels pixels fops i (n+1) acc
        = (match fops.writeErrno (i+1) with
          | some e => (e, acc)
          | none => writePixels pixels fops (i+1) n (acc ++ tripletOf (pixels.getD i 0)))
        from rfl]
    by_cases hk : k = i+1
    · subst hk
      rw [hke, show i + 1 - 1 - i = 0 from by omega,
        show tripletsFrom pixels i 0 = [] from rfl, List.append_nil]
    · have hnone : fops.writeErrno (i+1) = none := hfirst (i+1) (by omega) (by omega)
      rw [hnone,
        ih (i+1) (acc ++ tripletOf (pixels.getD i 0)) k e (by omega) (by omega) hke
          (fun j hj1 hj2 => hfirst j (by omega) hj2),
        show k - 1 - i = (k - 1 - (i+1)) + 1 from by omega,
        show tripletsFrom pixels i ((k - 1 - (i+1)) + 1)
          = tripletOf (pixels.getD i 0) ++ tripletsFrom pixels (i+1) (k - 1 - (i+1)) from rfl,
        List.append_assoc]

/-- On an all-success oracle, `save_to_ppm_file` returns result 0 and writes
the header followed by one triplet per pixel. -/
theorem save_to_ppm_file_ok (pixels : List Nat) (width height : Nat) :
    save_to_ppm_file pixels width height fopsOK =
      (0, headerOf width height ++ tripletsFrom pixels 0 (width*height)) := by
  rw [show save_to_ppm_file pixels width height fopsOK
      = writePixels pixels fopsOK 0 (width*height) (headerOf width height) from rfl]
  exact writePixels_success pixels fopsOK (width*height) 0 (headerOf width height)
    (fun k _ _ => rfl)

/-- C8: `save_to_ppm_file` returns an OS error code, not a boolean: it returns
0 exactly when opening and all header/pixel writes succeed; when opening fails
or a write fails it stops writing and returns that nonzero errno. -/
theorem save_to_ppm_errno_spec (pixels : List Nat) (width height : Nat) (fops : FileOps)
    (hnzo : ∀ e, fops.openErrno = some e → e ≠ 0)
    (hnzw : ∀ k e, fops.writeErrno k = some e → e ≠ 0) :
    ((save_to_ppm_file pixels width height fops).1 = 0 ↔
      (fops.openErrno = none ∧ ∀ k, k ≤ width*height → fops.writeErrno k = none)) ∧
    (∀ e, fops.openErrno = some e →
      save_to_ppm_file pixels width height fops = (e, [])) ∧
    (fops.openErrno = none → ∀ e, fops.writeErrno 0 = some e →
      save_to_ppm_file pixels width height fops = (e, [])) ∧
    (fops.openErrno = none → fops.writeErrno 0 = none →
      ∀ k e, 1 ≤ k → k ≤ width*height → fops.writeErrno k = some e →
        (∀ j, 1 ≤ j → j < k → fops.writeErrno j = none) →
        save_to_ppm_file pixels width height fops =
          (e, headerOf width height ++ tripletsFrom pixels 0 (k - 1))) := by
  refine ⟨?_, ?_, ?_, ?_⟩
  · rw [show save_to_ppm_file pixels width height fops
        = (match fops.openErrno with
          | some e => (e, ([] : List Nat))
          | none => match fops.writeErrno 0 with
            | some e => (e, [])
            | none => writePixels pixels fops 0 (width*height) (headerOf width height))
        from rfl]
    cases ho : fops.openErrno with
    | some e =>
      constructor
      · intro h0
        exact absurd h0 (hnzo e ho)
      · rintro ⟨hno, _⟩
        exact Option.noConfusion hno
    | none =>
      cases hw0 : fops.writeErrno 0 with
      | some e =>
        constructor
        · intro h0
          exact absurd h0 (hnzw 0 e hw0)
        · rintro ⟨_, hall⟩
          have hc := hall 0 (by omega)
          rw [hw0] at hc
          exact Option.noConfusion hc
      | none =>
        have hiff := writePixels_fst_zero_iff pixels fops hnzw (width*height) 0
          (headerOf width height)
        constructor
        · intro h0
          refine ⟨rfl, fun k hk => ?_⟩
          rcases Nat.eq_zero_or_pos k with hk0 | hkpos
          · rw [hk0]; exact hw0
          · exact hiff.mp h0 k (by omega) (by omega)
        · rintro ⟨_, hall⟩
          exact hiff.mpr (fun k h1 h2 => hall k (by omega))
  · intro e ho
    rw [show save_to_ppm_file pixels width height fops
        = (match fops.openErrno with
          | some e => (e, ([] : List Nat))
          | none => match fops.writeErrno 0 with
            | some e => (e, [])
            | none => writePixels pixels fops 0 (width*height) (headerOf width height))
        from rfl, ho]
  · intro ho e hw0
    rw [show save_to_ppm_file pixels width height fops
        = (match fops.openErrno with
          | some e => (e, ([] : List Nat))
          | none => match fops.writeErrno 0 with
            | some e => (e, [])
            | none => writePixels pixels fops 0 (width*height) (headerOf width height))
        from rfl, ho, hw0]
  · intro ho hw0 k e h1 h2 hke hfirst
    rw [show save_to_ppm_file pixels width height fops
        = (match fops.openErrno with
          | some e => (e, ([] : List Nat))
          | none => match fops.writeErrno 0 with
            | some e => (e, [])
            | none => writePixels pixels fops 0 (width*height) (headerOf width height))
        from rfl, ho, hw0,
      writePixels_first_fail pixels fops (width*height) 0 (headerOf width height) k e
        (by omega) (by omega) hke (fun j hj1 hj2 => hfirst j (by omega) hj2),
      show k - 1 - 0 = k - 1 from by omega]

/-- Witness for C8 at a concrete input (an oracle whose `fopen` fails with
errno 2). -/
theorem save_to_ppm_errno_spec_witness :
    ((∀ e, (FileOps.mk (some 2) (fun _ => none)).openErrno = some e → e ≠ 0) ∧
     (∀ k e, (FileOps.mk (some 2) (fun _ => none)).writeErrno k = some e → e ≠ 0)) ∧
    (((save_to_ppm_file [5] 1 1 (FileOps.mk (some 2) (fun _ => none))).1 = 0 ↔
      ((FileOps.mk (some 2) (fun _ => none)).openErrno = none ∧
        ∀ k, k ≤ 1*1 → (FileOps.mk (some 2) (fun _ => none)).writeErrno k = none)) ∧
    (∀ e, (FileOps.mk (some 2) (fun _ => none)).openErrno = some e →
      save_to_ppm_file [5] 1 1 (FileOps.mk (some 2) (fun _ => none)) = (e, [])) ∧
    ((FileOps.mk (some 2) (fun _ => none)).openErrno = none →
      ∀ e, (FileOps.mk (some 2) (fun _ => none)).writeErrno 0 = some e →
      save_to_ppm_file [5] 1 1 (FileOps.mk (some 2) (fun _ => none)) = (e, [])) ∧
    ((FileOps.mk (some 2) (fun _ => none)).openErrno = none →
      (FileOps.mk (some 2) (fun _ => none)).writeErrno 0 = none →
      ∀ k e, 1 ≤ k → k ≤ 1*1 →
        (FileOps.mk (some 2) (fun _ => none)).writeErrno k = some e →
        (∀ j, 1 ≤ j → j < k → (FileOps.mk (some 2) (fun _ => none)).writeErrno j = none) →
        save_to_ppm_file [5] 1 1 (FileOps.mk (some 2) (fun _ => none)) =
          (e, headerOf 1 1 ++ tripletsFrom [5] 0 (k - 1)))) :=
  ⟨⟨fun e h => by injection h with h2; omega, fun k e h => by simp at h⟩,
    save_to_ppm_errno_spec [5] 1 1 (FileOps.mk (some 2) (fun _ => none))
      (fun e h => by injection h with h2; omega) (fun k e h => by simp at h)⟩

/-- C1 counterexample: for the 2×2 test buffer, the output does NOT begin with
the bytes of `P6\n2 2\n255\n` (the code writes a space, not a newline, before
`255`). -/
theorem ppm_header_newline_claim_false :
    ¬((save_to_ppm_file [0xFF0000FF, 0xFF00FF00, 0xFFFF0000, 0xFF808080] 2 2 fopsOK).2.take 11
      = [80, 54, 10, 50, 32, 50, 10, 50, 53, 53, 10]) := by
  decide

/-- C1 (amended): the byte sequence produced by `save_to_ppm_file` begins with
the exact ASCII header `P6\n`, the width in decimal, a space, the height in
decimal, a space, `255`, and a newline — i.e. `P6\n{width} {height} 255\n` —
before any pixel bytes; for a 2×2 buffer the output begins with the bytes of
`P6\n2 2 255\n`. -/
theorem ppm_header_bytes :
    (∀ (pixels : List Nat) (width height : Nat), ∃ rest,
      (save_to_ppm_file pixels width height fopsOK).2 =
        asciiBytes "P6\n" ++ asciiBytes (Nat.repr width) ++ asciiBytes " " ++
        asciiBytes (Nat.repr height) ++ asciiBytes " 255\n" ++ rest) ∧
    (save_to_ppm_file [0xFF0000FF, 0xFF00FF00, 0xFFFF0000, 0xFF808080] 2 2 fopsOK).2.take 11
      = [80, 54, 10, 50, 32, 50, 32, 50, 53, 53, 10] := by
  constructor
  · intro pixels width height
    refine ⟨tripletsFrom pixels 0 (width*height), ?_⟩
    rw [save_to_ppm_file_ok,
      show ((0 : Nat), headerOf width height ++ tripletsFrom pixels 0 (width*height)).2
        = headerOf width height ++ tripletsFrom pixels 0 (width*height) from rfl,
      show headerOf width height
        = asciiBytes ("P6\n" ++ Nat.repr width ++ " " ++ Nat.repr height ++ " 255\n")
        from rfl,
      asciiBytes_append, asciiBytes_append, asciiBytes_append, asciiBytes_append]
  · decide

/-- Helper: the loop bytes equal the flat concatenation of per-pixel triplets
over the corresponding slice of the buffer. -/
theorem tripletsFrom_eq_flatMap (pixels : List Nat) :
    ∀ (n i : Nat), i + n ≤ pixels.length →
      tripletsFrom pixels i n = ((pixels.drop i).take n).flatMap tripletOf := by
  intro n
  induction n with
  | zero =>
    intro i _
    rfl
  | succ n ih =>
    intro i h
    have hi : i < pixels.length := by omega
    rw [show tripletsFrom pixels i (n+1)
        = tripletOf (pixels.getD i 0) ++ tripletsFrom pixels (i+1) n from rfl,
      ih (i+1) (by omega), List.drop_eq_getElem_cons hi, List.take_succ_cons,
      List.flatMap_cons, List.getD_eq_getElem pixels 0 hi]

/-- C2: after the header, the pixel data is exactly `width*height` three-byte
triplets in row-major buffer order; for each pixel the bytes are bits 0-7
(red), 8-15 (green) and 16-23 (blue) of the packed color, and bits 24-31
(alpha) are never written (the triplet depends only on the color mod `2^24`). -/
theorem ppm_pixel_data_spec (pixels : List Nat) (width height : Nat)
    (hlen : pixels.length = width*height) :
    ((save_to_ppm_file pixels width height fopsOK).2 =
      headerOf width height ++ pixels.flatMap tripletOf) ∧
    (∀ p, tripletOf p = [p % 2^8, p / 2^8 % 2^8, p / 2^16 % 2^8]) ∧
    (∀ p, tripletOf p = tripletOf (p % 2^24)) := by
  have hbytes : ∀ p : Nat, tripletOf p = [p % 2^8, p / 2^8 % 2^8, p / 2^16 % 2^8] := by
    intro p
    unfold tripletOf
    have h0 : (p >>> (8*0)) &&& 0xFF = p % 2^8 := by
      have h := Nat.and_pow_two_sub_one_eq_mod p 8
      simpa using h
    have h1 : (p >>> (8*1)) &&& 0xFF = p / 2^8 % 2^8 := by
      have h := Nat.and_pow_two_sub_one_eq_mod (p >>> (8*1)) 8
      rw [Nat.shiftRight_eq_div_pow] at h ⊢
      simpa using h
    have h2 : (p >>> (8*2)) &&& 0xFF = p / 2^16 % 2^8 := by
      have h := Nat.and_pow_two_sub_one_eq_mod (p >>> (8*2)) 8
      rw [Nat.shiftRight_eq_div_pow] at h ⊢
      simpa using h
    rw [h0, h1, h2]
  have halpha : ∀ p : Nat, tripletOf p = tripletOf (p % 2^24) := by
    intro p
    rw [hbytes p, hbytes (p % 2^24)]
    have e1 : p % 2^24 % 2^8 = p % 2^8 := by norm_num
    have e2 : p % 2^24 / 2^8 % 2^8 = p / 2^8 % 2^8 := by norm_num; omega
    have e3 : p % 2^24 / 2^16 % 2^8 = p / 2^16 % 2^8 := by norm_num; omega
    rw [e1, e2, e3]
  refine ⟨?_, hbytes, halpha⟩
  rw [save_to_ppm_file_ok,
    show ((0 : Nat), headerOf width height ++ tripletsFrom pixels 0 (width*height)).2
      = headerOf width height ++ tripletsFrom pixels 0 (width*height) from rfl]
  congr 1
  rw [tripletsFrom_eq_flatMap pixels (width*height) 0 (by omega), List.drop_zero,
    ← hlen, List.take_length]

/-- Witness for C2 at a concrete input. -/
theorem ppm_pixel_data_spec_witness :
    (([0xFF0000FF, 0xFF00FF00, 0xFFFF0000, 0xFF808080] : List Nat).length = 2*2) ∧
    (((save_to_ppm_file [0xFF0000FF, 0xFF00FF00, 0xFFFF0000, 0xFF808080] 2 2 fopsOK).2 =
      headerOf 2 2 ++ ([0xFF0000FF, 0xFF00FF00, 0xFFFF0000, 0xFF808080] : List Nat).flatMap
        tripletOf) ∧
    (∀ p, tripletOf p = [p % 2^8, p / 2^8 % 2^8, p / 2^16 % 2^8]) ∧
    (∀ p, tripletOf p = tripletOf (p % 2^24))) :=
  ⟨by decide, ppm_pixel_data_spec [0xFF0000FF, 0xFF00FF00, 0xFFFF0000, 0xFF808080] 2 2
    (by decide)⟩

end OpenCad
